import Mathlib

/-!
Verification development for the token-distributor repository.

The development shallowly embeds the two core subsystems:
  * the CSV validation / exact decimal conversion pipeline
    (src/utils/validation.ts, plus the fixed-point converter that the
    code takes from the `@autonomys/auto-utils` SDK, modelled from the
    specification where its source is not part of the repository), and
  * the distribution state machine (src/core/distributor.ts), with the
    chain client and the operator decision provider represented as
    oracles supplying one outcome per transfer attempt and one decision
    per failure consultation, and the resume-state store represented as
    an event log of checkpoint saves and clears.

Strings are modelled as lists of characters; JavaScript BigInt values
as `Int`; JavaScript numbers that the embedded code paths use are
integral and are modelled as `Nat`/`Int`.
-/

set_option maxRecDepth 4000

namespace TD

/-! ## Characters and digit lists -/

/-- Decimal digit test on code points, matching the regex class `\d`
(exactly the characters 0-9). -/
def isDigitCh (c : Char) : Bool := decide (48 ≤ c.toNat) && decide (c.toNat ≤ 57)

/-- Numeric value of a digit character. -/
def charVal (c : Char) : Nat := c.toNat - 48

/-- Big-endian digit characters of a natural number; empty for zero. -/
def natDigits (n : Nat) : List Char := ((Nat.digits 10 n).map Nat.digitChar).reverse

/-- Fuel-driven digit extraction (the fuel makes the recursion
structural; `n` itself is always enough fuel). -/
def natReprGo (fuel n : Nat) (acc : List Char) : List Char :=
  match fuel with
  | 0 => acc
  | fuel + 1 =>
    let d := Nat.digitChar (n % 10)
    if n / 10 = 0 then d :: acc
    else natReprGo fuel (n / 10) (d :: acc)

/-- Decimal rendering of a natural number, as `BigInt.prototype.toString`
produces it: no leading zeros, a single `0` for zero. -/
def natRepr (n : Nat) : List Char := natReprGo (n + 1) n []

theorem natReprGo_spec (fuel : Nat) : ∀ n acc, n < fuel →
    natReprGo fuel n acc = (if n = 0 then ['0'] else natDigits n) ++ acc := by
  induction fuel with
  | zero => intro n acc h; omega
  | succ fuel ih =>
    intro n acc h
    unfold natReprGo natDigits
    by_cases h0 : n / 10 = 0
    · rw [if_pos h0]
      by_cases hn : n = 0
      · subst hn
        simp
        decide
      · have hlt : n < 10 := by omega
        rw [if_neg hn, Nat.digits_of_lt 10 n hn hlt]
        simp [Nat.mod_eq_of_lt hlt]
    · rw [if_neg h0]
      have hn : n ≠ 0 := by
        intro hc
        subst hc
        simp at h0
      have hlt : n / 10 < fuel := by
        have := Nat.div_lt_self (Nat.pos_of_ne_zero hn) (show 1 < 10 by norm_num)
        omega
      have ih2 := ih (n / 10) (Nat.digitChar (n % 10) :: acc) hlt
      unfold natDigits at ih2
      rw [ih2, if_neg h0, if_neg hn,
        Nat.digits_def' (b := 10) (by norm_num) (Nat.pos_of_ne_zero hn)]
      simp

/-- The executable rendering agrees with the `Nat.digits`-based view. -/
theorem natRepr_eq (n : Nat) :
    natRepr n = if n = 0 then ['0'] else natDigits n := by
  have := natReprGo_spec (n + 1) n [] (by omega)
  unfold natRepr
  rw [this]
  simp

/-- Decimal rendering of an integer, with a leading minus sign when
negative. -/
def intRepr (i : Int) : List Char :=
  if i < 0 then '-' :: natRepr i.natAbs else natRepr i.natAbs

/-- Value of a big-endian list of digit characters (the usual
multiply-by-ten fold). -/
def digitsVal (cs : List Char) : Nat := cs.foldl (fun a c => 10 * a + charVal c) 0

/-- Leading zeros stripped, with a single `0` left when every digit is
zero. -/
def canonicalNat (cs : List Char) : List Char :=
  match cs.dropWhile (fun c => c == '0') with
  | [] => ['0']
  | ds => ds

/-- Trailing zeros stripped. -/
def dropTrailingZeros (cs : List Char) : List Char :=
  (cs.reverse.dropWhile (fun c => c == '0')).reverse

theorem charVal_lt_ten {c : Char} (h : isDigitCh c = true) : charVal c < 10 := by
  simp only [isDigitCh, Bool.and_eq_true, decide_eq_true_eq] at h
  simp only [charVal]
  omega

theorem char_toNat_inj {a b : Char} (h : a.toNat = b.toNat) : a = b := by
  have ha := Char.ofNat_toNat a
  have hb := Char.ofNat_toNat b
  rw [← ha, ← hb, h]

theorem digitChar_charVal {c : Char} (h : isDigitCh c = true) :
    Nat.digitChar (charVal c) = c := by
  simp only [isDigitCh, Bool.and_eq_true, decide_eq_true_eq] at h
  obtain ⟨h1, h2⟩ := h
  have hc : c = Char.ofNat c.toNat := (Char.ofNat_toNat c).symm
  rw [hc]
  simp only [charVal]
  generalize c.toNat = n at h1 h2 ⊢
  interval_cases n <;> decide

theorem charVal_digitChar {d : Nat} (h : d < 10) :
    charVal (Nat.digitChar d) = d := by
  interval_cases d <;> decide

theorem isDigitCh_digitChar {d : Nat} (h : d < 10) :
    isDigitCh (Nat.digitChar d) = true := by
  interval_cases d <;> decide

theorem charVal_eq_zero_iff {c : Char} (h : isDigitCh c = true) :
    charVal c = 0 ↔ c = '0' := by
  constructor
  · intro h0
    have := digitChar_charVal h
    rw [h0] at this
    exact this.symm
  · intro h0
    rw [h0]
    decide

theorem digitsVal_snoc (cs : List Char) (c : Char) :
    digitsVal (cs ++ [c]) = 10 * digitsVal cs + charVal c := by
  simp [digitsVal, List.foldl_append]

/-- `digitsVal` seen through Mathlib's little-endian `Nat.ofDigits`. -/
theorem digitsVal_eq_ofDigits (cs : List Char) :
    digitsVal cs = Nat.ofDigits 10 ((cs.map charVal).reverse) := by
  induction cs using List.reverseRecOn with
  | nil => simp [digitsVal, Nat.ofDigits]
  | append_singleton xs c ih =>
    rw [digitsVal_snoc, ih]
    simp only [List.map_append, List.reverse_append, List.map_cons, List.map_nil,
      List.reverse_cons, List.reverse_nil, List.nil_append, List.singleton_append,
      Nat.ofDigits_cons]
    ring

theorem digitsVal_append_zeros (cs : List Char) (k : Nat) :
    digitsVal (cs ++ List.replicate k '0') = digitsVal cs * 10 ^ k := by
  induction k with
  | zero => simp
  | succ k ih =>
    rw [List.replicate_succ' k '0', ← List.append_assoc, digitsVal_snoc, ih]
    have hz : charVal '0' = 0 := by decide
    rw [hz]
    ring

theorem digitsVal_zeros_append (cs : List Char) (k : Nat) :
    digitsVal (List.replicate k '0' ++ cs) = digitsVal cs := by
  induction k with
  | zero => simp
  | succ k ih =>
    rw [List.replicate_succ, List.cons_append]
    simp only [digitsVal, List.foldl_cons]
    have : (10 * 0 + charVal '0') = 0 := by decide
    rw [this]
    exact ih

theorem digitsVal_lt (cs : List Char) (h : ∀ c ∈ cs, isDigitCh c = true) :
    digitsVal cs < 10 ^ cs.length := by
  rw [digitsVal_eq_ofDigits]
  have hlen : ((cs.map charVal).reverse).length = cs.length := by simp
  rw [← hlen]
  apply Nat.ofDigits_lt_base_pow_length (by norm_num)
  intro x hx
  simp only [List.mem_reverse, List.mem_map] at hx
  obtain ⟨c, hc, rfl⟩ := hx
  exact charVal_lt_ten (h c hc)

/-- Rendering and parsing are mutually inverse on canonical digit
lists: parsing a digit list and re-rendering gives back the list once
the leading zeros are dropped. -/
theorem natDigits_digitsVal (cs : List Char) (hne : cs ≠ [])
    (hd : ∀ c ∈ cs, isDigitCh c = true)
    (hh : cs.head hne ≠ '0') :
    natDigits (digitsVal cs) = cs := by
  rw [digitsVal_eq_ofDigits]
  have hall : ∀ l ∈ (cs.map charVal).reverse, l < 10 := by
    intro l hl
    simp only [List.mem_reverse, List.mem_map] at hl
    obtain ⟨c, hc, rfl⟩ := hl
    exact charVal_lt_ten (hd c hc)
  have hne2 : (cs.map charVal).reverse ≠ [] := by
    simp [hne]
  have hlast : ∀ h2 : (cs.map charVal).reverse ≠ [],
      ((cs.map charVal).reverse).getLast h2 ≠ 0 := by
    intro h2
    rw [List.getLast_reverse]
    have hhm : (cs.map charVal).head (by simp [hne]) = charVal (cs.head hne) := by
      cases cs with
      | nil => exact absurd rfl hne
      | cons a l => rfl
    rw [hhm]
    intro hzero
    exact hh ((charVal_eq_zero_iff (hd _ (List.head_mem hne))).mp hzero)
  unfold natDigits
  rw [Nat.digits_ofDigits 10 (by norm_num) _ hall hlast]
  rw [List.map_reverse, List.reverse_reverse, List.map_map]
  have : ∀ c ∈ cs, (Nat.digitChar ∘ charVal) c = c := by
    intro c hc
    exact digitChar_charVal (hd c hc)
  exact List.map_congr_left this |>.trans (List.map_id cs)

theorem digitsVal_natDigits (n : Nat) : digitsVal (natDigits n) = n := by
  rw [digitsVal_eq_ofDigits]
  unfold natDigits
  rw [List.map_reverse, List.reverse_reverse, List.map_map]
  have h1 : (Nat.digits 10 n).map (charVal ∘ Nat.digitChar) = Nat.digits 10 n := by
    have h2 : ∀ d ∈ Nat.digits 10 n, (charVal ∘ Nat.digitChar) d = d := by
      intro d hd
      exact charVal_digitChar (Nat.digits_lt_base (by norm_num) hd)
    exact (List.map_congr_left h2).trans (List.map_id _)
  rw [h1, Nat.ofDigits_digits]

theorem digitsVal_natRepr (n : Nat) : digitsVal (natRepr n) = n := by
  rw [natRepr_eq]
  by_cases h : n = 0
  · subst h
    decide
  · simp only [h, if_false]
    exact digitsVal_natDigits n

theorem natDigits_ne_nil {n : Nat} (h : n ≠ 0) : natDigits n ≠ [] := by
  unfold natDigits
  simp [Nat.digits_ne_nil_iff_ne_zero, h]

theorem natRepr_ne_nil (n : Nat) : natRepr n ≠ [] := by
  rw [natRepr_eq]
  by_cases h : n = 0
  · simp [h]
  · simp only [h, if_false]
    exact natDigits_ne_nil h

theorem natDigits_all_digits (n : Nat) :
    ∀ c ∈ natDigits n, isDigitCh c = true := by
  intro c hc
  unfold natDigits at hc
  simp only [List.mem_reverse, List.mem_map] at hc
  obtain ⟨d, hd, rfl⟩ := hc
  exact isDigitCh_digitChar (Nat.digits_lt_base (by norm_num) hd)

theorem natRepr_all_digits (n : Nat) :
    ∀ c ∈ natRepr n, isDigitCh c = true := by
  intro c hc
  rw [natRepr_eq] at hc
  by_cases h : n = 0
  · simp [h] at hc
    subst hc
    decide
  · simp only [h, if_false] at hc
    exact natDigits_all_digits n c hc

/-- Multiplying by a power of ten appends zero digits. -/
theorem natDigits_mul_pow (m k : Nat) (hm : m ≠ 0) :
    natDigits (m * 10 ^ k) = natDigits m ++ List.replicate k '0' := by
  unfold natDigits
  rw [mul_comm, Nat.digits_base_pow_mul (by norm_num) (Nat.pos_of_ne_zero hm)]
  rw [List.map_append, List.reverse_append]
  congr 1
  rw [List.map_replicate, List.reverse_replicate]
  rfl

/-- The canonical rendering of a nonzero number never starts with a
zero digit. -/
theorem natDigits_head_ne_zero {n : Nat} (h : n ≠ 0) (hne : natDigits n ≠ []) :
    (natDigits n).head hne ≠ '0' := by
  unfold natDigits at hne ⊢
  rw [List.head_reverse]
  have hdne : Nat.digits 10 n ≠ [] := Nat.digits_ne_nil_iff_ne_zero.mpr h
  rw [List.getLast_map _ _ (by simpa using hne)]
  intro hcon
  have hlast := Nat.getLast_digit_ne_zero 10 h
  have hlt : (Nat.digits 10 n).getLast hdne < 10 :=
    Nat.digits_lt_base (by norm_num) (List.getLast_mem hdne)
  have := charVal_digitChar hlt
  rw [hcon] at this
  exact hlast (by simpa using this.symm)

/-! ## Helper lemmas on takeWhile / dropWhile -/

theorem takeWhile_append_of_all {p : Char → Bool} {l1 l2 : List Char}
    (h : ∀ a ∈ l1, p a = true) :
    (l1 ++ l2).takeWhile p = l1 ++ l2.takeWhile p := by
  induction l1 with
  | nil => simp
  | cons a t ih =>
    simp only [List.cons_append, List.takeWhile_cons, h a (by simp)]
    simp [ih (fun b hb => h b (by simp [hb]))]

theorem dropWhile_append_of_all {p : Char → Bool} {l1 l2 : List Char}
    (h : ∀ a ∈ l1, p a = true) :
    (l1 ++ l2).dropWhile p = l2.dropWhile p := by
  induction l1 with
  | nil => simp
  | cons a t ih =>
    simp only [List.cons_append, List.dropWhile_cons, h a (by simp)]
    exact ih (fun b hb => h b (by simp [hb]))

theorem dropWhile_eq_self_of_head {p : Char → Bool} {l : List Char}
    (h : ∀ hne : l ≠ [], p (l.head hne) = false) :
    l.dropWhile p = l := by
  cases l with
  | nil => rfl
  | cons a t =>
    have := h (by simp)
    simp only [List.head_cons] at this
    simp [List.dropWhile_cons, this]

theorem all_zero_eq_replicate {l : List Char} (h : ∀ c ∈ l, c = '0') :
    l = List.replicate l.length '0' := by
  induction l with
  | nil => rfl
  | cons a t ih =>
    simp only [List.length_cons, List.replicate_succ]
    rw [h a (by simp), ih (fun c hc => h c (by simp [hc]))]
    simp

theorem dropTrailingZeros_append_zeros (l : List Char) (k : Nat) :
    dropTrailingZeros (l ++ List.replicate k '0') = dropTrailingZeros l := by
  unfold dropTrailingZeros
  rw [List.reverse_append, List.reverse_replicate]
  rw [dropWhile_append_of_all (by intro a ha; simp at ha; simp [ha])]

theorem dropTrailingZeros_eq_nil_iff (l : List Char) :
    dropTrailingZeros l = [] ↔ ∀ c ∈ l, c = '0' := by
  unfold dropTrailingZeros
  constructor
  · intro h c hc
    have h2 : l.reverse.dropWhile (fun c => c == '0') = [] := by
      have := congrArg List.reverse h
      simpa using this
    have h3 := List.dropWhile_eq_nil_iff.mp h2
    have := h3 c (by simp [hc])
    simpa using this
  · intro h
    have h2 : l.reverse.dropWhile (fun c => c == '0') = [] := by
      apply List.dropWhile_eq_nil_iff.mpr
      intro c hc
      simp [h c (by simpa using hc)]
    simp [h2]

/-- Any nonempty digit list splits as leading zeros followed by the
canonical rendering of its value. -/
theorem digits_decompose (cs : List Char) (hd : ∀ c ∈ cs, isDigitCh c = true)
    (hv : digitsVal cs ≠ 0) :
    ∃ k, cs = List.replicate k '0' ++ natDigits (digitsVal cs) ∧
      k + (natDigits (digitsVal cs)).length = cs.length := by
  have hsplit := List.takeWhile_append_dropWhile (p := fun c => c == '0') (l := cs)
  set zs := cs.takeWhile (fun c => c == '0') with hzs
  set ds := cs.dropWhile (fun c => c == '0') with hds
  have hzall : ∀ c ∈ zs, c = '0' := by
    intro c hc
    have := List.mem_takeWhile_imp hc
    simpa using this
  have hzrep : zs = List.replicate zs.length '0' := all_zero_eq_replicate hzall
  have hval : digitsVal cs = digitsVal ds := by
    conv_lhs => rw [← hsplit]
    rw [hzrep, digitsVal_zeros_append]
  have hdne : ds ≠ [] := by
    intro hnil
    apply hv
    rw [hval, hnil]
    rfl
  have hdd : ∀ c ∈ ds, isDigitCh c = true := by
    intro c hc
    exact hd c (List.dropWhile_sublist (p := fun c => c == '0') (l := cs) |>.mem hc)
  have hdh : ds.head hdne ≠ '0' := by
    have := List.head_dropWhile_not (p := fun c => c == '0') (l := cs) hdne
    simpa using this
  have hnd : natDigits (digitsVal cs) = ds := by
    rw [hval]
    exact natDigits_digitsVal ds hdne hdd hdh
  refine ⟨zs.length, ?_, ?_⟩
  · rw [hnd]
    conv_lhs => rw [← hsplit]
    rw [← hzrep]
  · rw [hnd]
    have := congrArg List.length hsplit
    simpa using this

/-- `natRepr` of the parsed value is the canonical (leading zeros
stripped) form of a digit list. -/
theorem natRepr_digitsVal_canonical (cs : List Char) (hne : cs ≠ [])
    (hd : ∀ c ∈ cs, isDigitCh c = true) :
    natRepr (digitsVal cs) = canonicalNat cs := by
  by_cases hv : digitsVal cs = 0
  · have hall : ∀ c ∈ cs, c = '0' := by
      intro c hc
      rw [digitsVal_eq_ofDigits] at hv
      have := Nat.digits_zero_of_eq_zero (by norm_num) hv (charVal c) (by
        simp only [List.mem_reverse, List.mem_map]
        exact ⟨c, hc, rfl⟩)
      exact (charVal_eq_zero_iff (hd c hc)).mp this
    have hdrop : cs.dropWhile (fun c => c == '0') = [] := by
      apply List.dropWhile_eq_nil_iff.mpr
      intro c hc
      simp [hall c hc]
    unfold canonicalNat
    rw [hv, hdrop]
    rfl
  · obtain ⟨k, hcs, _⟩ := digits_decompose cs hd hv
    have hdrop : cs.dropWhile (fun c => c == '0') = natDigits (digitsVal cs) := by
      conv_lhs => rw [hcs]
      rw [dropWhile_append_of_all (by intro a ha; simp at ha; simp [ha])]
      apply dropWhile_eq_self_of_head
      intro hne2
      have := natDigits_head_ne_zero hv hne2
      simpa using this
    unfold canonicalNat
    rw [hdrop]
    have hne4 : natDigits (digitsVal cs) ≠ [] := by
      intro hnil
      apply hv
      have := digitsVal_natDigits (digitsVal cs)
      rw [hnil] at this
      simpa using this.symm
    cases hmatch : natDigits (digitsVal cs) with
    | nil => exact absurd hmatch hne4
    | cons a t =>
      rw [natRepr_eq, if_neg hv]
      exact hmatch

/-! ## FixedPointConverter

The repository converts between decimal token amounts and integer
minor units (Shannon, 18 fractional digits) through the
`ai3ToShannons` / `shannonsToAi3` functions of `@autonomys/auto-utils`.
That SDK code is not part of this repository, so the converter is
modelled from the specification (section 4.1). -/

/-- Error value for a malformed amount string. -/
def invalidFormatMsg : List Char := ('I' :: "nvalidAmountFormat".data)

/-- Error value for a decimal with more than 18 fractional digits. -/
def tooManyDecimalsMsg : List Char := "too many decimal places".data

/-- Modelled from the spec: `toMinorUnits` / `ai3ToShannons` of the
FixedPointConverter (section 4.1), whose source (the
`@autonomys/auto-utils` SDK) is not under src/.  Splits at the single
`.`; the integer part and the fractional part must both be nonempty
digit runs; a fractional part shorter than 18 digits is right-padded
with zeros, one longer than 18 digits is rejected as a distinct
too-many-decimal-places error; the value is
`integerPart * 10^18 + fractionalPartAsInteger`. -/
def ai3ToShannons (cs : List Char) : Except (List Char) Int :=
  let ip := cs.takeWhile (fun c => c != '.')
  match cs.dropWhile (fun c => c != '.') with
  | [] =>
    if ip.isEmpty then .error invalidFormatMsg
    else if ip.all isDigitCh then .ok ((digitsVal ip : Int) * 10 ^ 18)
    else .error invalidFormatMsg
  | _ :: fp =>
    if ip.isEmpty || fp.isEmpty || !ip.all isDigitCh || !fp.all isDigitCh then
      .error invalidFormatMsg
    else if fp.length ≤ 18 then
      .ok ((digitsVal ip : Int) * 10 ^ 18 +
        (digitsVal (fp ++ List.replicate (18 - fp.length) '0') : Int))
    else .error tooManyDecimalsMsg

/-- Modelled from the spec: `toDecimalString` / `shannonsToAi3`
(section 4.1).  Integer-divide by 10^18 for the whole part; the
remainder is zero-padded on the left to 18 digits and stripped of
trailing zeros; a zero remainder yields only the whole part. -/
def shannonsToAi3 (v : Int) : List Char :=
  let n := v.toNat
  let whole := n / 10 ^ 18
  let rem := n % 10 ^ 18
  if rem = 0 then natRepr whole
  else
    natRepr whole ++ '.' ::
      dropTrailingZeros (List.replicate (18 - (natRepr rem).length) '0' ++ natRepr rem)

/-- The canonical form of a decimal amount string, as the specification
describes it: leading zeros of the integer part stripped (a single `0`
kept), trailing zeros of the fractional part stripped, and the decimal
point removed when the fractional part is all zeros. -/
def canonicalForm (cs : List Char) : List Char :=
  let ip := cs.takeWhile (fun c => c != '.')
  match cs.dropWhile (fun c => c != '.') with
  | [] => canonicalNat ip
  | _ :: fp =>
    match dropTrailingZeros fp with
    | [] => canonicalNat ip
    | f => canonicalNat ip ++ '.' :: f

theorem digit_ne_dot {c : Char} (h : isDigitCh c = true) : (c != '.') = true := by
  simp only [isDigitCh, Bool.and_eq_true, decide_eq_true_eq] at h
  simp only [bne_iff_ne, ne_eq]
  intro hcon
  rw [hcon] at h
  simp at h

/-- Splitting a dotted decimal string recovers its two parts. -/
theorem split_decimal (ip fp : List Char)
    (hi : ∀ c ∈ ip, isDigitCh c = true) :
    (ip ++ '.' :: fp).takeWhile (fun c => c != '.') = ip ∧
    (ip ++ '.' :: fp).dropWhile (fun c => c != '.') = '.' :: fp := by
  constructor
  · rw [takeWhile_append_of_all (fun a ha => digit_ne_dot (hi a ha))]
    simp [List.takeWhile_cons]
  · rw [dropWhile_append_of_all (fun a ha => digit_ne_dot (hi a ha))]
    simp [List.dropWhile_cons]

/-- Splitting an undotted digit string gives the string itself. -/
theorem split_integer (ip : List Char) (hi : ∀ c ∈ ip, isDigitCh c = true) :
    ip.takeWhile (fun c => c != '.') = ip ∧
    ip.dropWhile (fun c => c != '.') = [] := by
  constructor
  · have :=
      @takeWhile_append_of_all (fun c => c != '.') ip []
        (fun a ha => digit_ne_dot (hi a ha))
    simpa using this
  · have :=
      @dropWhile_append_of_all (fun c => c != '.') ip []
        (fun a ha => digit_ne_dot (hi a ha))
    simpa using this

theorem all_zero_of_digitsVal_eq_zero {cs : List Char}
    (hd : ∀ c ∈ cs, isDigitCh c = true) (h : digitsVal cs = 0) :
    ∀ c ∈ cs, c = '0' := by
  intro c hc
  rw [digitsVal_eq_ofDigits] at h
  have := Nat.digits_zero_of_eq_zero (by norm_num) h (charVal c) (by
    simp only [List.mem_reverse, List.mem_map]
    exact ⟨c, hc, rfl⟩)
  exact (charVal_eq_zero_iff (hd c hc)).mp this

theorem digitsVal_all_zero {cs : List Char} (h : ∀ c ∈ cs, c = '0') :
    digitsVal cs = 0 := by
  rw [all_zero_eq_replicate h]
  have := digitsVal_zeros_append [] cs.length
  simpa using this

/-- Whole/remainder arithmetic of the fixed-point split. -/
theorem fixed_point_div_mod (a p : Nat) (hp : p < 10 ^ 18) :
    (a * 10 ^ 18 + p) / 10 ^ 18 = a ∧ (a * 10 ^ 18 + p) % 10 ^ 18 = p := by
  constructor
  · rw [mul_comm, Nat.mul_add_div (by positivity), Nat.div_eq_of_lt hp]
    omega
  · rw [mul_comm, Nat.mul_add_mod]
    exact Nat.mod_eq_of_lt hp

theorem canonicalForm_frac (I F : List Char) (hI : ∀ c ∈ I, isDigitCh c = true) :
    canonicalForm (I ++ '.' :: F) =
      match dropTrailingZeros F with
      | [] => canonicalNat I
      | f => canonicalNat I ++ '.' :: f := by
  have hsplit := split_decimal I F hI
  unfold canonicalForm
  rw [hsplit.1, hsplit.2]

theorem toNat_fixed_point (a p : Nat) :
    ((a : Int) * 10 ^ 18 + (p : Int)).toNat = a * 10 ^ 18 + p := by
  have : ((a : Int) * 10 ^ 18 + (p : Int)) = ((a * 10 ^ 18 + p : Nat) : Int) := by
    push_cast
    ring
  rw [this, Int.toNat_natCast]

/-- Round trip for a bare integer amount. -/
theorem shannonsToAi3_int_val (I : List Char) (hIne : I ≠ [])
    (hI : ∀ c ∈ I, isDigitCh c = true) :
    shannonsToAi3 ((digitsVal I : Int) * 10 ^ 18) = canonicalNat I := by
  have ht : ((digitsVal I : Int) * 10 ^ 18).toNat = digitsVal I * 10 ^ 18 := by
    have := toNat_fixed_point (digitsVal I) 0
    simpa using this
  obtain ⟨hdiv, hmod⟩ := fixed_point_div_mod (digitsVal I) 0 (by positivity)
  simp only [Nat.add_zero] at hdiv hmod
  unfold shannonsToAi3
  simp only [ht, hdiv, hmod, if_pos rfl]
  exact natRepr_digitsVal_canonical I hIne hI

/-- Round trip for a dotted amount. -/
theorem shannonsToAi3_frac_val (I F : List Char) (hIne : I ≠ [])
    (hI : ∀ c ∈ I, isDigitCh c = true)
    (hFne : F ≠ []) (hF : ∀ c ∈ F, isDigitCh c = true) (hlen : F.length ≤ 18) :
    shannonsToAi3 ((digitsVal I : Int) * 10 ^ 18 +
        (digitsVal (F ++ List.replicate (18 - F.length) '0') : Int)) =
      canonicalForm (I ++ '.' :: F) := by
  set P := digitsVal (F ++ List.replicate (18 - F.length) '0') with hPdef
  have hPF : P = digitsVal F * 10 ^ (18 - F.length) := digitsVal_append_zeros F _
  have hPlen : (F ++ List.replicate (18 - F.length) '0').length = 18 := by
    simp only [List.length_append, List.length_replicate]
    omega
  have hPlt : P < 10 ^ 18 := by
    have := digitsVal_lt (F ++ List.replicate (18 - F.length) '0') (by
      intro c hc
      rcases List.mem_append.mp hc with hc1 | hc2
      · exact hF c hc1
      · have : c = '0' := by simpa using List.eq_of_mem_replicate hc2
        rw [this]
        decide)
    rwa [hPlen] at this
  have ht := toNat_fixed_point (digitsVal I) P
  obtain ⟨hdiv, hmod⟩ := fixed_point_div_mod (digitsVal I) P hPlt
  rw [canonicalForm_frac I F hI]
  by_cases hP : P = 0
  · have hVF : digitsVal F = 0 := by
      rw [hPF] at hP
      rcases Nat.mul_eq_zero.mp hP with h | h
      · exact h
      · exact absurd h (by positivity)
    have hallF : ∀ c ∈ F, c = '0' :=
      all_zero_of_digitsVal_eq_zero hF hVF
    have hdt : dropTrailingZeros F = [] :=
      (dropTrailingZeros_eq_nil_iff F).mpr hallF
    rw [hdt]
    unfold shannonsToAi3
    simp only [ht, hdiv, hmod]
    rw [if_pos hP]
    exact natRepr_digitsVal_canonical I hIne hI
  · have hVF : digitsVal F ≠ 0 := by
      intro h0
      apply hP
      rw [hPF, h0, Nat.zero_mul]
    obtain ⟨k, hFdec, hklen⟩ := digits_decompose F hF hVF
    have hnatP : natRepr P = natDigits (digitsVal F) ++ List.replicate (18 - F.length) '0' := by
      rw [natRepr_eq, if_neg hP, hPF]
      exact natDigits_mul_pow (digitsVal F) (18 - F.length) hVF
    have hlenP : (natRepr P).length =
        (natDigits (digitsVal F)).length + (18 - F.length) := by
      rw [hnatP]
      simp
    have hkval : 18 - (natRepr P).length = k := by
      rw [hlenP]
      omega
    have hchain : List.replicate (18 - (natRepr P).length) '0' ++ natRepr P =
        (List.replicate k '0' ++ natDigits (digitsVal F)) ++
          List.replicate (18 - F.length) '0' := by
      rw [hkval, hnatP, List.append_assoc]
    have hdt2 : dropTrailingZeros (List.replicate (18 - (natRepr P).length) '0' ++ natRepr P) =
        dropTrailingZeros F := by
      rw [hchain, dropTrailingZeros_append_zeros, ← hFdec]
    have hdtne : dropTrailingZeros F ≠ [] := by
      intro h0
      exact hVF (digitsVal_all_zero ((dropTrailingZeros_eq_nil_iff F).mp h0))
    unfold shannonsToAi3
    simp only [ht, hdiv, hmod, if_neg hP]
    rw [hdt2, natRepr_digitsVal_canonical I hIne hI]

/-- Claim C7: toDecimalString after toMinorUnits yields the canonical
form of every valid decimal string with at most 18 fractional digits:
leading zeros stripped except a single 0, trailing fractional zeros
stripped, and no decimal point when the fractional part is zero.  The
two conjuncts cover the bare-integer spelling `I` and the dotted
spelling `I.F`. -/
theorem claimC7_toMinorUnits_roundtrip (I F : List Char)
    (hIne : I ≠ []) (hI : ∀ c ∈ I, isDigitCh c = true)
    (hFne : F ≠ []) (hF : ∀ c ∈ F, isDigitCh c = true)
    (hlen : F.length ≤ 18) :
    (∃ v, ai3ToShannons I = .ok v ∧ shannonsToAi3 v = canonicalForm I) ∧
    (∃ v, ai3ToShannons (I ++ '.' :: F) = .ok v ∧
      shannonsToAi3 v = canonicalForm (I ++ '.' :: F)) := by
  have hIe : I.isEmpty = false := by
    cases I with
    | nil => exact absurd rfl hIne
    | cons a t => rfl
  have hIall : I.all isDigitCh = true := by
    rw [List.all_eq_true]
    exact hI
  obtain ⟨hti, hdi⟩ := split_integer I hI
  obtain ⟨htf, hdf⟩ := split_decimal I F hI
  constructor
  · refine ⟨(digitsVal I : Int) * 10 ^ 18, ?_, ?_⟩
    · unfold ai3ToShannons
      rw [hti, hdi]
      simp [hIe, hIall]
    · unfold canonicalForm
      rw [hti, hdi]
      exact shannonsToAi3_int_val I hIne hI
  · have hFe : F.isEmpty = false := by
      cases F with
      | nil => exact absurd rfl hFne
      | cons a t => rfl
    have hFall : F.all isDigitCh = true := by
      rw [List.all_eq_true]
      exact hF
    refine ⟨(digitsVal I : Int) * 10 ^ 18 +
      (digitsVal (F ++ List.replicate (18 - F.length) '0') : Int), ?_, ?_⟩
    · unfold ai3ToShannons
      rw [htf, hdf]
      simp [hIe, hIall, hFe, hFall, hlen]
    · exact shannonsToAi3_frac_val I F hIne hI hFne hF hlen

/-- Witness for C7 at the concrete input 00100.2300 (canonical form
100.23) and its integer part 00100 (canonical form 100). -/
theorem claimC7_toMinorUnits_roundtrip_witness :
    (∃ v, ai3ToShannons ("00100".data) = .ok v ∧
      shannonsToAi3 v = canonicalForm ("00100".data)) ∧
    (∃ v, ai3ToShannons ("00100".data ++ '.' :: "2300".data) = .ok v ∧
      shannonsToAi3 v = canonicalForm ("00100".data ++ '.' :: "2300".data)) :=
  claimC7_toMinorUnits_roundtrip ("00100".data) ("2300".data)
    (by decide) (by decide) (by decide) (by decide) (by decide)

/-! ## Amount validation (src/utils/validation.ts, isValidAmount) -/

/-- JavaScript whitespace characters that `String.prototype.trim`
removes, restricted to the ASCII range that can occur here. -/
def isJsWs (c : Char) : Bool :=
  c == ' ' || c == '\t' || c == '\n' || c == '\r' ||
    c == Char.ofNat 11 || c == Char.ofNat 12

/-- `String.prototype.trim`. -/
def jsTrim (cs : List Char) : List Char :=
  ((cs.dropWhile isJsWs).reverse.dropWhile isJsWs).reverse

/-- The amount format regex of `isValidAmount`: `^\d+(\.\d+)?$`. -/
def matchesAmountRegex (cs : List Char) : Bool :=
  let ip := cs.takeWhile (fun c => c != '.')
  match cs.dropWhile (fun c => c != '.') with
  | [] => !ip.isEmpty && ip.all isDigitCh
  | _ :: fp => !ip.isEmpty && ip.all isDigitCh && !fp.isEmpty && fp.all isDigitCh

/-- The zero-spelling regex of `isValidAmount`: `^0+(\.0+)?$`. -/
def matchesZeroRegex (cs : List Char) : Bool :=
  let ip := cs.takeWhile (fun c => c != '.')
  match cs.dropWhile (fun c => c != '.') with
  | [] => !ip.isEmpty && ip.all (fun c => c == '0')
  | _ :: fp => !ip.isEmpty && ip.all (fun c => c == '0') &&
      !fp.isEmpty && fp.all (fun c => c == '0')

/-- `isValidAmount` (validation.ts lines 95-116): the empty string is
falsy and rejected; otherwise the trimmed string must match the decimal
format regex and must not be an all-zero spelling. -/
def isValidAmount (cs : List Char) : Bool :=
  if cs.isEmpty then false
  else
    let t := jsTrim cs
    if !matchesAmountRegex t then false
    else if matchesZeroRegex t then false
    else true

theorem dropWhile_cons_head_false {p : Char → Bool} {l fp : List Char} {a : Char}
    (hd : l.dropWhile p = a :: fp) : p a = false := by
  induction l with
  | nil => simp at hd
  | cons x t ih =>
    rw [List.dropWhile_cons] at hd
    by_cases hp : p x = true
    · rw [if_pos hp] at hd
      exact ih hd
    · rw [if_neg hp] at hd
      cases hd
      simpa using hp

theorem jsTrim_eq_self {cs : List Char} (h : ∀ c ∈ cs, isJsWs c = false) :
    jsTrim cs = cs := by
  unfold jsTrim
  have h1 : cs.dropWhile isJsWs = cs :=
    dropWhile_eq_self_of_head (fun hne => h _ (List.head_mem hne))
  rw [h1]
  have h2 : cs.reverse.dropWhile isJsWs = cs.reverse :=
    dropWhile_eq_self_of_head (fun hne =>
      h _ (List.mem_reverse.mp (List.head_mem hne)))
  rw [h2, List.reverse_reverse]

/-- A string matching the zero regex matches the amount regex (every
`0` is a digit). -/
theorem zeroRegex_matches_amountRegex {cs : List Char}
    (h : matchesZeroRegex cs = true) : matchesAmountRegex cs = true := by
  unfold matchesZeroRegex at h
  unfold matchesAmountRegex
  cases hd : cs.dropWhile (fun c => c != '.') with
  | nil =>
    simp only [hd] at h ⊢
    simp only [Bool.and_eq_true, List.all_eq_true] at h ⊢
    refine ⟨h.1, fun c hc => ?_⟩
    have hc0 : c = '0' := by simpa using h.2 c hc
    rw [hc0]
    decide
  | cons a fp =>
    simp only [hd] at h ⊢
    simp only [Bool.and_eq_true, List.all_eq_true] at h ⊢
    obtain ⟨⟨⟨hne, hzi⟩, hfne⟩, hzf⟩ := h
    refine ⟨⟨⟨hne, fun c hc => ?_⟩, hfne⟩, fun c hc => ?_⟩
    · have hc0 : c = '0' := by simpa using hzi c hc
      rw [hc0]
      decide
    · have hc0 : c = '0' := by simpa using hzf c hc
      rw [hc0]
      decide

/-- Every character of a string matching the amount regex is a digit
or the decimal point. -/
theorem amountRegex_chars {cs : List Char} (h : matchesAmountRegex cs = true) :
    ∀ c ∈ cs, isDigitCh c = true ∨ c = '.' := by
  intro c hc
  unfold matchesAmountRegex at h
  have hsplit := List.takeWhile_append_dropWhile
    (p := fun c => c != '.') (l := cs)
  cases hd : cs.dropWhile (fun c => c != '.') with
  | nil =>
    simp only [hd] at h
    simp only [Bool.and_eq_true, List.all_eq_true] at h
    have hcs : cs.takeWhile (fun c => c != '.') = cs := by
      conv_rhs => rw [← hsplit]
      rw [hd, List.append_nil]
    left
    exact h.2 c (by rw [hcs]; exact hc)
  | cons a fp =>
    simp only [hd] at h
    simp only [Bool.and_eq_true, List.all_eq_true] at h
    have ha : a = '.' := by
      have := dropWhile_cons_head_false hd
      simpa using this
    rw [← hsplit, hd] at hc
    rcases List.mem_append.mp hc with h1 | h2
    · left
      exact h.1.1.2 c h1
    · rcases List.mem_cons.mp h2 with h3 | h3
      · right
        rw [h3, ha]
      · left
        exact h.2 c h3

/-! ## Data model (src/types, DistributionRecord and friends) -/

inductive Status where
  | pending
  | processing
  | completed
  | failed
  | skipped
deriving DecidableEq, Repr

structure DistributionRecord where
  address : List Char
  amount : Int
  status : Status
  transactionHash : Option (List Char) := none
  blockHash : Option (List Char) := none
  blockNumber : Option Nat := none
  error : Option (List Char) := none
  attempts : Option Nat := none
  timestamp : Option Unit := none
deriving DecidableEq, Repr

/-! ## CSV validation (src/utils/validation.ts, CSVValidator) -/

inductive NetKind where
  | autonomys
  | substrate
deriving DecidableEq, Repr

/-- The external address codec collaborator (the SDK `isAddress` plus
the prefix classification of `getAddressNetworkInfo`), abstracted as an
oracle. -/
structure AddrEnv where
  isAddr : List Char → Bool
  netInfo : List Char → Option NetKind

/-- `validateAddress` (validation.ts lines 33-66), returning the
isValid flag and the error message. The null/non-string guard cannot
fire on a string input. -/
def validateAddress (env : AddrEnv) (cs : List Char) : Bool × Option (List Char) :=
  let t := jsTrim cs
  if t.isEmpty then (false, some ("Address cannot be empty".data))
  else if env.isAddr t then (true, none)
  else (false, some ("Invalid SS58 address format".data))

def isValidAutonomysAddress (env : AddrEnv) (cs : List Char) : Bool :=
  (validateAddress env cs).1

/-- A CSV row as csv-parser delivers it under headers [address, amount]. -/
structure CSVRow where
  address : Option (List Char)
  amount : Option (List Char)
deriving DecidableEq, Repr

/-- `row.field?.trim()` followed by the JavaScript falsiness test
`!value` (undefined and the empty string are falsy). -/
def jsStrOpt (f : Option (List Char)) : Option (List Char) :=
  match f with
  | none => none
  | some cs =>
    let t := jsTrim cs
    if t.isEmpty then none else some t

structure DupEntry where
  address : List Char
  indices : List Nat
deriving DecidableEq, Repr

structure AddressStats where
  autonomysCount : Nat
  substrateCount : Nat
deriving DecidableEq, Repr

structure ValidationResult where
  isValid : Bool
  errors : List (List Char)
  warnings : List (List Char)
  duplicates : List DupEntry
  totalAmount : Int
  recordCount : Nat
  addressStats : AddressStats
deriving DecidableEq, Repr

/-- Accumulator state of the validateCSV stream pass. -/
structure CSVState where
  errors : List (List Char)
  warnings : List (List Char)
  records : List DistributionRecord
  addressMap : List (List Char × List Nat)
  totalAmountShannon : Int
  lineNumber : Nat
  autonomysCount : Nat
  substrateCount : Nat
deriving DecidableEq, Repr

def initCSVState : CSVState :=
  { errors := [], warnings := [], records := [], addressMap := [],
    totalAmountShannon := 0, lineNumber := 0,
    autonomysCount := 0, substrateCount := 0 }

/-- Existential deposit: 0.000001 AI3 in Shannon. -/
def EXISTENTIAL_DEPOSIT_SHANNON : Int := 1000000000000

/-- `ai3ToShannons('1000000')`, the large-amount threshold. -/
def millionAI3InShannon : Int := 1000000 * 10 ^ 18

instance {α β : Type} [DecidableEq α] [DecidableEq β] :
    DecidableEq (Except α β) := fun a b =>
  match a, b with
  | .error x, .error y =>
    if h : x = y then .isTrue (by rw [h])
    else .isFalse (fun hc => by cases hc; exact h rfl)
  | .ok x, .ok y =>
    if h : x = y then .isTrue (by rw [h])
    else .isFalse (fun hc => by cases hc; exact h rfl)
  | .error x, .ok y => .isFalse (fun hc => by cases hc)
  | .ok x, .error y => .isFalse (fun hc => by cases hc)

theorem millionAI3InShannon_eq :
    ai3ToShannons ("1000000".data) = .ok millionAI3InShannon := by decide

def lineTag (n : Nat) : List Char := "Line ".data ++ natRepr n ++ ": ".data

def belowEDWarning (n : Nat) (amount : List Char) : List Char :=
  lineTag n ++ "Amount ".data ++ amount ++
    " AI3 is below existential deposit (".data ++
    shannonsToAi3 EXISTENTIAL_DEPOSIT_SHANNON ++
    " AI3). This may fail for new accounts or accounts with insufficient balance.".data

def verySmallWarning (n : Nat) (amount : List Char) (shannon : Int) : List Char :=
  lineTag n ++ "Very small amount (".data ++ amount ++ " AI3 = ".data ++
    intRepr shannon ++ " Shannon) - verify precision".data

def largeAmountWarning (n : Nat) (amount : List Char) : List Char :=
  lineTag n ++ "Large amount (".data ++ amount ++
    ") - please verify this is correct".data

def dupWarnText (d : DupEntry) : List Char :=
  "Duplicate address found: ".data ++ d.address ++ " on lines ".data ++
    List.intercalate (", ".data) (d.indices.map natRepr)

/-- `addressMap.get(address).push(n)` respectively
`addressMap.set(address, [n])` on an insertion-ordered association
list (the model of the JavaScript `Map`). -/
def mapPush : List (List Char × List Nat) → List Char → Nat →
    List (List Char × List Nat)
  | [], k, n => [(k, [n])]
  | e :: t, k, n =>
    if e.1 = k then (e.1, e.2 ++ [n]) :: t else e :: mapPush t k n

/-- One iteration of the `data` handler of validateCSV (validation.ts
lines 163-246). -/
def processRow (env : AddrEnv) (st : CSVState) (row : CSVRow) : CSVState :=
  let n := st.lineNumber + 1
  let st := { st with lineNumber := n }
  match jsStrOpt row.address with
  | none => { st with errors := st.errors ++ [lineTag n ++ "Address is required".data] }
  | some address =>
    match jsStrOpt row.amount with
    | none => { st with errors := st.errors ++ [lineTag n ++ "Amount is required".data] }
    | some amount =>
      if !isValidAutonomysAddress env address then
        { st with errors := st.errors ++
          [lineTag n ++ "Invalid SS58 address format: ".data ++ address] }
      else
        let st :=
          match env.netInfo address with
          | some .autonomys => { st with autonomysCount := st.autonomysCount + 1 }
          | some .substrate => { st with substrateCount := st.substrateCount + 1 }
          | none => st
        if !isValidAmount amount then
          { st with errors := st.errors ++
            [lineTag n ++ "Invalid amount format: ".data ++ amount] }
        else
          match ai3ToShannons amount with
          | .error e =>
            -- a conversion throw is caught by the row-level try/catch
            { st with errors := st.errors ++
              [lineTag n ++ "Parsing error - ".data ++ e] }
          | .ok shannonAmount =>
            let st :=
              if shannonAmount < EXISTENTIAL_DEPOSIT_SHANNON then
                { st with warnings := st.warnings ++ [belowEDWarning n amount] }
              else st
            let st :=
              if shannonAmount < 1000 then
                { st with warnings := st.warnings ++
                  [verySmallWarning n amount shannonAmount] }
              else st
            let st :=
              if shannonAmount > millionAI3InShannon then
                { st with warnings := st.warnings ++ [largeAmountWarning n amount] }
              else st
            let st := { st with addressMap := mapPush st.addressMap address n }
            let st := { st with records := st.records ++
              [({ address := address, amount := shannonAmount,
                  status := .pending } : DistributionRecord)] }
            { st with totalAmountShannon := st.totalAmountShannon + shannonAmount }

/-- The `end` handler of validateCSV (validation.ts lines 248-296). -/
def finishCSV (st : CSVState) : ValidationResult :=
  let duplicates := (st.addressMap.filter (fun e => 1 < e.2.length)).map
    (fun e => ({ address := e.1, indices := e.2 } : DupEntry))
  let warnings := st.warnings ++ duplicates.map dupWarnText
  let errors := st.errors ++
    (if st.records.length = 0 then [("No valid records found in CSV file".data)] else []) ++
    (if st.totalAmountShannon = 0 then [("Total distribution amount is zero".data)] else [])
  { isValid := errors.isEmpty, errors := errors, warnings := warnings,
    duplicates := duplicates, totalAmount := st.totalAmountShannon,
    recordCount := st.records.length,
    addressStats := { autonomysCount := st.autonomysCount,
                      substrateCount := st.substrateCount } }

/-- validateCSV over an already-streamed list of rows. -/
def validateCSV (env : AddrEnv) (rows : List CSVRow) : ValidationResult :=
  finishCSV (rows.foldl (processRow env) initCSVState)

/-- The data a row contributes when it passes every per-row check:
its trimmed address and Shannon amount. -/
def validRowData (env : AddrEnv) (row : CSVRow) : Option (List Char × Int) :=
  match jsStrOpt row.address with
  | none => none
  | some address =>
    match jsStrOpt row.amount with
    | none => none
    | some amount =>
      if !isValidAutonomysAddress env address then none
      else if !isValidAmount amount then none
      else
        match ai3ToShannons amount with
        | .error _ => none
        | .ok v => some (address, v)

/-- 1-based line numbers (offset by `n`) of the rows that contribute a
record with address `a`. -/
def linesOfFrom (env : AddrEnv) (a : List Char) : Nat → List CSVRow → List Nat
  | _, [] => []
  | n, row :: rest =>
    (if (validRowData env row).map Prod.fst = some a then [n + 1] else []) ++
      linesOfFrom env a (n + 1) rest

def linesOf (env : AddrEnv) (rows : List CSVRow) (a : List Char) : List Nat :=
  linesOfFrom env a 0 rows

def mapLookup : List (List Char × List Nat) → List Char → List Nat
  | [], _ => []
  | e :: t, k => if e.1 = k then e.2 else mapLookup t k

/-- Errors a single row contributes (at 1-based line number `n`). -/
def rowErrors (env : AddrEnv) (n : Nat) (row : CSVRow) : List (List Char) :=
  match jsStrOpt row.address with
  | none => [lineTag n ++ "Address is required".data]
  | some address =>
    match jsStrOpt row.amount with
    | none => [lineTag n ++ "Amount is required".data]
    | some amount =>
      if !isValidAutonomysAddress env address then
        [lineTag n ++ "Invalid SS58 address format: ".data ++ address]
      else if !isValidAmount amount then
        [lineTag n ++ "Invalid amount format: ".data ++ amount]
      else
        match ai3ToShannons amount with
        | .error e => [lineTag n ++ "Parsing error - ".data ++ e]
        | .ok _ => []

/-- Warnings a single row contributes. -/
def rowWarnings (env : AddrEnv) (n : Nat) (row : CSVRow) : List (List Char) :=
  match jsStrOpt row.address with
  | none => []
  | some address =>
    match jsStrOpt row.amount with
    | none => []
    | some amount =>
      if !isValidAutonomysAddress env address then []
      else if !isValidAmount amount then []
      else
        match ai3ToShannons amount with
        | .error _ => []
        | .ok v =>
          (if v < EXISTENTIAL_DEPOSIT_SHANNON then [belowEDWarning n amount] else []) ++
          (if v < 1000 then [verySmallWarning n amount v] else []) ++
          (if v > millionAI3InShannon then [largeAmountWarning n amount] else [])

/-- Records a single row contributes. -/
def rowRecords (env : AddrEnv) (row : CSVRow) : List DistributionRecord :=
  match validRowData env row with
  | some (a, v) => [{ address := a, amount := v, status := .pending }]
  | none => []

def rowAmount (env : AddrEnv) (row : CSVRow) : Int :=
  match validRowData env row with
  | some (_, v) => v
  | none => 0

/-- Increment of the Autonomys address counter for one row. -/
def rowAutonomys (env : AddrEnv) (row : CSVRow) : Nat :=
  match jsStrOpt row.address with
  | none => 0
  | some address =>
    match jsStrOpt row.amount with
    | none => 0
    | some amount =>
      if !isValidAutonomysAddress env address then 0
      else
        match env.netInfo address with
        | some .autonomys => 1
        | _ => 0

/-- Increment of the Substrate address counter for one row. -/
def rowSubstrate (env : AddrEnv) (row : CSVRow) : Nat :=
  match jsStrOpt row.address with
  | none => 0
  | some address =>
    match jsStrOpt row.amount with
    | none => 0
    | some amount =>
      if !isValidAutonomysAddress env address then 0
      else
        match env.netInfo address with
        | some .substrate => 1
        | _ => 0

/-- Full characterization of one validateCSV iteration. -/
theorem processRow_eq (env : AddrEnv) (st : CSVState) (row : CSVRow) :
    processRow env st row =
      { st with
        lineNumber := st.lineNumber + 1,
        errors := st.errors ++ rowErrors env (st.lineNumber + 1) row,
        warnings := st.warnings ++ rowWarnings env (st.lineNumber + 1) row,
        records := st.records ++ rowRecords env row,
        addressMap :=
          (match validRowData env row with
           | some (a, _) => mapPush st.addressMap a (st.lineNumber + 1)
           | none => st.addressMap),
        totalAmountShannon := st.totalAmountShannon + rowAmount env row,
        autonomysCount := st.autonomysCount + rowAutonomys env row,
        substrateCount := st.substrateCount + rowSubstrate env row } := by
  unfold processRow rowErrors rowWarnings rowRecords rowAmount rowAutonomys
    rowSubstrate validRowData
  cases h1 : jsStrOpt row.address with
  | none => simp
  | some address =>
    cases h2 : jsStrOpt row.amount with
    | none => simp
    | some amount =>
      by_cases h3 : isValidAutonomysAddress env address
      · simp only [h3, Bool.not_true, Bool.false_eq_true, if_false]
        by_cases h4 : isValidAmount amount
        · simp only [h4, Bool.not_true, Bool.false_eq_true, if_false]
          cases h5 : ai3ToShannons amount with
          | error e =>
            cases h6 : env.netInfo address with
            | none => simp
            | some k => cases k <;> simp
          | ok v =>
            cases h6 : env.netInfo address with
            | none =>
              by_cases h7 : v < EXISTENTIAL_DEPOSIT_SHANNON <;>
                by_cases h8 : v < 1000 <;>
                by_cases h9 : v > millionAI3InShannon <;>
                simp [h7, h8, h9]
            | some k =>
              cases k <;>
                (by_cases h7 : v < EXISTENTIAL_DEPOSIT_SHANNON <;>
                  by_cases h8 : v < 1000 <;>
                  by_cases h9 : v > millionAI3InShannon <;>
                  simp [h7, h8, h9])
        · simp only [h4, Bool.not_false, if_true]
          cases h6 : env.netInfo address with
          | none => simp
          | some k => cases k <;> simp
      · have h3f : isValidAutonomysAddress env address = false := by
          simpa using h3
        simp [h3f]

def mapKeys (m : List (List Char × List Nat)) : List (List Char) :=
  m.map Prod.fst

theorem mapLookup_mapPush (m : List (List Char × List Nat)) (k : List Char)
    (n : Nat) (a : List Char) :
    mapLookup (mapPush m k n) a =
      mapLookup m a ++ (if a = k then [n] else []) := by
  induction m with
  | nil =>
    by_cases h : a = k
    · subst h
      simp [mapPush, mapLookup]
    · have h2 : ¬ k = a := fun hc => h hc.symm
      simp [mapPush, mapLookup, h, h2]
  | cons e t ih =>
    by_cases he : e.1 = k
    · unfold mapPush
      rw [if_pos he]
      by_cases ha : e.1 = a
      · have hak : a = k := by rw [← ha, he]
        simp [mapLookup, ha, hak]
      · have hak : a ≠ k := by
          intro hc
          exact ha (by rw [he, hc])
        simp [mapLookup, ha, hak]
    · unfold mapPush
      rw [if_neg he]
      by_cases ha : e.1 = a
      · have hak : a ≠ k := by
          intro hc
          exact he (by rw [ha, hc])
        simp [mapLookup, ha, hak]
      · simp [mapLookup, ha, ih]

theorem mapKeys_mapPush (m : List (List Char × List Nat)) (k : List Char)
    (n : Nat) :
    mapKeys (mapPush m k n) =
      if k ∈ mapKeys m then mapKeys m else mapKeys m ++ [k] := by
  unfold mapKeys
  induction m with
  | nil => simp [mapPush]
  | cons e t ih =>
    unfold mapPush
    by_cases he : e.1 = k
    · subst he
      simp
    · rw [if_neg he]
      have hne : ¬ k = e.1 := fun hc => he hc.symm
      simp only [List.map_cons, List.mem_cons, hne, false_or]
      by_cases hk : k ∈ List.map Prod.fst t
      · simp [hk, ih]
      · simp [hk, ih]

theorem mapPush_nodupKeys {m : List (List Char × List Nat)} {k : List Char}
    {n : Nat} (h : (mapKeys m).Nodup) : (mapKeys (mapPush m k n)).Nodup := by
  rw [mapKeys_mapPush]
  by_cases hk : k ∈ mapKeys m
  · simpa [hk] using h
  · simp only [hk, if_false]
    rw [List.nodup_append]
    refine ⟨h, by simp, ?_⟩
    simp only [List.disjoint_singleton]
    simpa using hk

theorem mapPush_valuesNonempty :
    ∀ {m : List (List Char × List Nat)} {k : List Char} {n : Nat},
      (∀ e ∈ m, e.2 ≠ []) → ∀ e ∈ mapPush m k n, e.2 ≠ [] := by
  intro m k n
  induction m with
  | nil =>
    intro _ e he
    simp only [mapPush, List.mem_singleton] at he
    subst he
    simp
  | cons x t ih =>
    intro h e he
    unfold mapPush at he
    by_cases hx : x.1 = k
    · rw [if_pos hx] at he
      rcases List.mem_cons.mp he with h1 | h1
      · subst h1
        simp
      · exact h e (List.mem_cons_of_mem x h1)
    · rw [if_neg hx] at he
      rcases List.mem_cons.mp he with h1 | h1
      · subst h1
        exact h e (List.mem_cons_self e t)
      · exact ih (fun e' he' => h e' (List.mem_cons_of_mem x he')) e h1

/-- Membership in a well-formed association list is lookup. -/
theorem mem_iff_mapLookup {m : List (List Char × List Nat)}
    (hnd : (mapKeys m).Nodup) (hne : ∀ e ∈ m, e.2 ≠ [])
    (a : List Char) (l : List Nat) :
    (a, l) ∈ m ↔ (mapLookup m a = l ∧ l ≠ []) := by
  induction m with
  | nil => simp [mapLookup]
  | cons e t ih =>
    simp only [mapKeys, List.map_cons, List.nodup_cons] at hnd
    have ih2 := ih hnd.2 (fun e' he' => hne e' (List.mem_cons_of_mem e he'))
    constructor
    · intro hm
      rcases List.mem_cons.mp hm with h1 | h1
      · have ha : e.1 = a := by rw [← h1]
        have hl : e.2 = l := by rw [← h1]
        unfold mapLookup
        rw [if_pos ha, hl]
        refine ⟨rfl, ?_⟩
        rw [← hl]
        exact hne e (List.mem_cons_self e t)
      · have ha : e.1 ≠ a := by
          intro hc
          apply hnd.1
          rw [hc]
          exact List.mem_map.mpr ⟨(a, l), h1, rfl⟩
        unfold mapLookup
        rw [if_neg ha]
        exact ih2.mp h1
    · intro hpair
      obtain ⟨hl, hlne⟩ := hpair
      unfold mapLookup at hl
      by_cases ha : e.1 = a
      · rw [if_pos ha] at hl
        have : e = (a, l) := by
          cases e with
          | mk k2 v2 =>
            simp only at ha hl
            rw [ha, hl]
        exact List.mem_cons.mpr (Or.inl this.symm)
      · rw [if_neg ha] at hl
        exact List.mem_cons_of_mem e (ih2.mpr ⟨hl, hlne⟩)

/-- Aggregate behavior of the validateCSV stream pass over a row list. -/
theorem foldl_processRow (env : AddrEnv) (rows : List CSVRow) : ∀ st : CSVState,
    (rows.foldl (processRow env) st).lineNumber = st.lineNumber + rows.length ∧
    (∃ es, (rows.foldl (processRow env) st).errors = st.errors ++ es) ∧
    (∃ ws, (rows.foldl (processRow env) st).warnings = st.warnings ++ ws) ∧
    (rows.foldl (processRow env) st).records.length =
      st.records.length +
        (rows.filter (fun r => (validRowData env r).isSome)).length ∧
    (∀ a, mapLookup (rows.foldl (processRow env) st).addressMap a =
      mapLookup st.addressMap a ++ linesOfFrom env a st.lineNumber rows) ∧
    ((mapKeys st.addressMap).Nodup →
      (mapKeys (rows.foldl (processRow env) st).addressMap).Nodup) ∧
    ((∀ e ∈ st.addressMap, e.2 ≠ []) →
      ∀ e ∈ (rows.foldl (processRow env) st).addressMap, e.2 ≠ []) := by
  induction rows with
  | nil =>
    intro st
    refine ⟨by simp, ⟨[], by simp⟩, ⟨[], by simp⟩, by simp, ?_, ?_, ?_⟩
    · intro a
      simp [linesOfFrom]
    · exact fun h => h
    · exact fun h => h
  | cons row rest ih =>
    intro st
    rw [List.foldl_cons]
    obtain ⟨ihLine, ⟨es2, ihErr⟩, ⟨ws2, ihWarn⟩, ihRec, ihMap, ihNd, ihNe⟩ :=
      ih (processRow env st row)
    rw [processRow_eq] at ihLine ihErr ihWarn ihRec ihMap ihNd ihNe ⊢
    refine ⟨?_, ?_, ?_, ?_, ?_, ?_, ?_⟩
    · rw [ihLine]
      simp only [List.length_cons]
      omega
    · refine ⟨rowErrors env (st.lineNumber + 1) row ++ es2, ?_⟩
      rw [ihErr]
      simp
    · refine ⟨rowWarnings env (st.lineNumber + 1) row ++ ws2, ?_⟩
      rw [ihWarn]
      simp
    · rw [ihRec]
      simp only [List.length_append, List.filter_cons]
      unfold rowRecords
      cases hv : validRowData env row with
      | none =>
        simp [hv]
      | some p =>
        simp [hv]
        omega
    · intro a
      rw [ihMap a]
      simp only
      rw [show linesOfFrom env a st.lineNumber (row :: rest) =
        (if (validRowData env row).map Prod.fst = some a
          then [st.lineNumber + 1] else []) ++
          linesOfFrom env a (st.lineNumber + 1) rest from rfl]
      cases hv : validRowData env row with
      | none =>
        simp [hv]
      | some p =>
        simp only [hv, Option.map_some]
        rw [mapLookup_mapPush]
        by_cases hab : a = p.1
        · subst hab
          simp [List.append_assoc]
        · have : ¬ (some p.1 = some a) := by
            intro hc
            exact hab (Option.some.inj hc).symm
          simp [hab, this]
    · intro hnd
      apply ihNd
      simp only
      cases hv : validRowData env row with
      | none => simpa [hv] using hnd
      | some p =>
        simp only [hv]
        exact mapPush_nodupKeys hnd
    · intro hne
      apply ihNe
      simp only
      cases hv : validRowData env row with
      | none => simpa [hv] using hne
      | some p =>
        simp only [hv]
        exact mapPush_valuesNonempty hne

theorem matchesZeroRegex_ne_nil {cs : List Char}
    (h : matchesZeroRegex cs = true) : cs ≠ [] := by
  intro hc
  subst hc
  simp [matchesZeroRegex] at h

/-- Claim C6: every all-zero decimal spelling and every string using
scientific notation (or any other character outside digits and the
decimal point) is rejected by isValidAmount, and validateCSV records a
row-level Invalid-amount-format error carrying the literal amount
value.  The zero case passes the format regex and is rejected by the
dedicated zero test, a rejection path distinct from the generic format
failure that scientific notation takes. -/
theorem claimC6_zero_and_scientific_rejected :
    (∀ cs, matchesZeroRegex cs = true → (∀ c ∈ cs, isJsWs c = false) →
      isValidAmount cs = false ∧ matchesAmountRegex cs = true) ∧
    (∀ cs c, c ∈ jsTrim cs → isDigitCh c = false → c ≠ '.' →
      isValidAmount cs = false ∧ matchesAmountRegex (jsTrim cs) = false) ∧
    (∀ env pre (row : CSVRow) post address amount,
      jsStrOpt row.address = some address →
      isValidAutonomysAddress env address = true →
      jsStrOpt row.amount = some amount →
      isValidAmount amount = false →
      (lineTag (pre.length + 1) ++ "Invalid amount format: ".data ++ amount) ∈
        (validateCSV env (pre ++ row :: post)).errors) := by
  refine ⟨?_, ?_, ?_⟩
  · intro cs hz hws
    have hne : cs ≠ [] := matchesZeroRegex_ne_nil hz
    have hcse : cs.isEmpty = false := by
      cases cs with
      | nil => exact absurd rfl hne
      | cons a t => rfl
    have htrim : jsTrim cs = cs := jsTrim_eq_self hws
    have hm : matchesAmountRegex cs = true := zeroRegex_matches_amountRegex hz
    refine ⟨?_, hm⟩
    unfold isValidAmount
    rw [hcse, if_neg (by simp)]
    simp only [htrim, hm, Bool.not_true, Bool.false_eq_true, if_false, hz, if_true]
  · intro cs c hc hcd hcdot
    have hm : matchesAmountRegex (jsTrim cs) = false := by
      by_contra hcon
      rw [Bool.not_eq_false] at hcon
      rcases amountRegex_chars hcon c hc with h | h
      · rw [h] at hcd
        exact Bool.noConfusion hcd
      · exact hcdot h
    refine ⟨?_, hm⟩
    have hne : cs ≠ [] := by
      intro hnil
      subst hnil
      simp [jsTrim] at hc
    have hcse : cs.isEmpty = false := by
      cases cs with
      | nil => exact absurd rfl hne
      | cons a t => rfl
    unfold isValidAmount
    rw [hcse, if_neg (by simp)]
    simp only [hm, Bool.not_false, if_true]
  · intro env pre row post address amount h1 h2 h3 h4
    unfold validateCSV
    rw [List.foldl_append, List.foldl_cons]
    have hline : (List.foldl (processRow env) initCSVState pre).lineNumber =
        pre.length := by
      have := (foldl_processRow env pre initCSVState).1
      simpa [initCSVState] using this
    obtain ⟨es, hpost⟩ := (foldl_processRow env post
      (processRow env (List.foldl (processRow env) initCSVState pre) row)).2.1
    have hrow : rowErrors env
        ((List.foldl (processRow env) initCSVState pre).lineNumber + 1) row =
        [lineTag (pre.length + 1) ++ "Invalid amount format: ".data ++ amount] := by
      unfold rowErrors
      rw [h1, h3, hline]
      dsimp only
      rw [h2, h4]
      simp
    unfold finishCSV
    simp only
    apply List.mem_append_left
    apply List.mem_append_left
    rw [hpost, processRow_eq]
    simp only
    apply List.mem_append_left
    rw [hrow]
    apply List.mem_append_right
    simp

/-- Witness for C6: the zero spelling 0.0, the scientific spelling
1e-18, and a one-row CSV whose amount is 0.0 under an
accept-everything address oracle. -/
theorem claimC6_zero_and_scientific_rejected_witness :
    (isValidAmount ("0.0".data) = false ∧
      matchesAmountRegex ("0.0".data) = true) ∧
    (isValidAmount ("1e-18".data) = false ∧
      matchesAmountRegex (jsTrim ("1e-18".data)) = false) ∧
    ((lineTag 1 ++ "Invalid amount format: ".data ++ "0.0".data) ∈
      (validateCSV ⟨fun _ => true, fun _ => none⟩
        [⟨some ("addr".data), some ("0.0".data)⟩]).errors) := by
  refine ⟨?_, ?_, ?_⟩
  · exact claimC6_zero_and_scientific_rejected.1 ("0.0".data)
      (by decide) (by decide)
  · exact claimC6_zero_and_scientific_rejected.2.1 ("1e-18".data) 'e'
      (by decide) (by decide) (by decide)
  · exact claimC6_zero_and_scientific_rejected.2.2
      ⟨fun _ => true, fun _ => none⟩ [] ⟨some ("addr".data), some ("0.0".data)⟩ []
      ("addr".data) ("0.0".data) (by decide) (by decide) (by decide) (by decide)

theorem list_eq_singleton_of_all_eq {α β : Type} (L : List α) (x : α)
    (f : α → β) (hx : x ∈ L) (hall : ∀ y ∈ L, y = x)
    (hnd : (L.map f).Nodup) : L = [x] := by
  cases L with
  | nil => simp at hx
  | cons y t =>
    have hy : y = x := hall y (List.mem_cons_self y t)
    cases t with
    | nil => rw [hy]
    | cons z t2 =>
      exfalso
      have hz : z = x := hall z (by simp)
      simp only [List.map_cons, List.nodup_cons] at hnd
      apply hnd.1
      have : f z ∈ f z :: List.map f t2 := List.mem_cons_self _ _
      rw [hy, ← hz]
      exact this

/-- The addressMap at the end of validateCSV looks up to `linesOf`,
its keys are distinct, and its values are nonempty. -/
theorem validateCSV_map_facts (env : AddrEnv) (rows : List CSVRow) :
    (∀ a, mapLookup (rows.foldl (processRow env) initCSVState).addressMap a =
      linesOf env rows a) ∧
    (mapKeys (rows.foldl (processRow env) initCSVState).addressMap).Nodup ∧
    (∀ e ∈ (rows.foldl (processRow env) initCSVState).addressMap, e.2 ≠ []) := by
  obtain ⟨_, _, _, _, hmap, hnd, hne⟩ := foldl_processRow env rows initCSVState
  refine ⟨?_, ?_, ?_⟩
  · intro a
    have := hmap a
    simpa [initCSVState, mapLookup, linesOf] using this
  · exact hnd (by simp [initCSVState, mapKeys])
  · exact hne (by simp [initCSVState])

/-- Claim C9 (amended): validateCSV collects for each address seen on
more than one valid row the ordered list of all its 1-based line
numbers; the duplicated addresses are pairwise distinct; duplicate rows
are not rejected (every valid row still yields a record); and each
duplicated address appends exactly one duplicate-found warning (a
single warning listing all its line numbers), not one warning per
occurrence beyond the first.  A CSV where one valid address appears on
lines 1 and 2 yields exactly one entry with indices [1, 2]. -/
theorem claimC9_duplicates_amended (env : AddrEnv) (rows : List CSVRow) :
    (∀ a idxs, (⟨a, idxs⟩ : DupEntry) ∈ (validateCSV env rows).duplicates ↔
      (idxs = linesOf env rows a ∧ 2 ≤ idxs.length)) ∧
    ((validateCSV env rows).duplicates.map (fun d => d.address)).Nodup ∧
    (∃ rowWs, (validateCSV env rows).warnings =
      rowWs ++ (validateCSV env rows).duplicates.map dupWarnText) ∧
    ((validateCSV env rows).recordCount =
      (rows.filter (fun r => (validRowData env r).isSome)).length) ∧
    (∀ (row1 row2 : CSVRow) a v1 v2,
      validRowData env row1 = some (a, v1) →
      validRowData env row2 = some (a, v2) →
      (validateCSV env [row1, row2]).duplicates =
        [({ address := a, indices := [1, 2] } : DupEntry)]) := by
  have key : ∀ (rows2 : List CSVRow) a idxs,
      (⟨a, idxs⟩ : DupEntry) ∈ (validateCSV env rows2).duplicates ↔
      (idxs = linesOf env rows2 a ∧ 2 ≤ idxs.length) := by
    intro rows2 a idxs
    obtain ⟨hmap, hnd, hne⟩ := validateCSV_map_facts env rows2
    unfold validateCSV finishCSV
    simp only [List.mem_map, List.mem_filter]
    constructor
    · intro ⟨e, ⟨⟨hmem, hlen⟩, heq⟩⟩
      have h1 : e.1 = a := by
        have := congrArg DupEntry.address heq
        simpa using this
      have h2 : e.2 = idxs := by
        have := congrArg DupEntry.indices heq
        simpa using this
      have hpair : (a, idxs) ∈
          (rows2.foldl (processRow env) initCSVState).addressMap := by
        have : e = (a, idxs) := by
          cases e
          simp only at h1 h2
          rw [h1, h2]
        rw [← this]
        exact hmem
      have := (mem_iff_mapLookup hnd hne a idxs).mp hpair
      refine ⟨by rw [← hmap a, this.1], ?_⟩
      rw [← h2]
      simpa using hlen
    · intro ⟨hidx, hlen⟩
      refine ⟨(a, idxs), ⟨⟨?_, ?_⟩, rfl⟩⟩
      · apply (mem_iff_mapLookup hnd hne a idxs).mpr
        refine ⟨by rw [hmap a, hidx], ?_⟩
        intro hnil
        rw [hnil] at hlen
        simp at hlen
      · simpa using hlen
  have nodup_addr : ∀ (rows2 : List CSVRow),
      ((validateCSV env rows2).duplicates.map (fun d => d.address)).Nodup := by
    intro rows2
    obtain ⟨hmap, hnd, hne⟩ := validateCSV_map_facts env rows2
    unfold validateCSV finishCSV
    simp only [List.map_map]
    have hsub : ((rows2.foldl (processRow env) initCSVState).addressMap.filter
        (fun e => 1 < e.2.length)).Sublist
        (rows2.foldl (processRow env) initCSVState).addressMap :=
      List.filter_sublist _
    have := (hsub.map Prod.fst).nodup hnd
    convert this using 1
  refine ⟨key rows, nodup_addr rows,
    ⟨(rows.foldl (processRow env) initCSVState).warnings, rfl⟩, ?_, ?_⟩
  · obtain ⟨_, _, _, hrec, _, _, _⟩ := foldl_processRow env rows initCSVState
    unfold validateCSV finishCSV
    simpa [initCSVState] using hrec
  · intro row1 row2 a v1 v2 h1 h2
    have hlines : linesOf env [row1, row2] a = [1, 2] := by
      simp [linesOf, linesOfFrom, h1, h2]
    have hmem : (⟨a, [1, 2]⟩ : DupEntry) ∈
        (validateCSV env [row1, row2]).duplicates := by
      apply (key [row1, row2] a [1, 2]).mpr
      exact ⟨hlines.symm, by simp⟩
    apply list_eq_singleton_of_all_eq _ _ (fun d => d.address) hmem _
      (nodup_addr [row1, row2])
    intro y hy
    cases y with
    | mk b l =>
      have := (key [row1, row2] b l).mp hy
      have hb : b = a := by
        by_contra hba
        have hab : ¬ (a = b) := fun hc => hba hc.symm
        have hlb : linesOf env [row1, row2] b = [] := by
          simp [linesOf, linesOfFrom, h1, h2, hab]
        rw [hlb] at this
        rw [this.1] at this
        simp at this
      have hl : l = [1, 2] := by
        rw [this.1, hb, hlines]
      rw [hb, hl]

/-- Address oracle accepting every address, for concrete CSV runs. -/
def c9Env : AddrEnv := ⟨fun _ => true, fun _ => none⟩

/-- Three rows with the same valid address. -/
def c9Rows : List CSVRow :=
  [⟨some ("A".data), some ("1".data)⟩,
   ⟨some ("A".data), some ("2".data)⟩,
   ⟨some ("A".data), some ("3".data)⟩]

/-- Counterexample to C9 as stated: an address on three valid rows has
two occurrences beyond the first, yet validateCSV emits exactly one
duplicate-found warning (all warnings of this run are duplicate
warnings). -/
theorem claimC9_counterexample :
    (validateCSV c9Env c9Rows).duplicates =
      [({ address := "A".data, indices := [1, 2, 3] } : DupEntry)] ∧
    (validateCSV c9Env c9Rows).warnings =
      [dupWarnText { address := "A".data, indices := [1, 2, 3] }] ∧
    (validateCSV c9Env c9Rows).warnings.length = 1 ∧
    ¬ ((validateCSV c9Env c9Rows).warnings.length = 3 - 1) := by
  refine ⟨by decide, by decide, by decide, by decide⟩

/-- Two rows with the same valid address, for the C9 witness. -/
def c9RowsW : List CSVRow :=
  [⟨some ("A".data), some ("1".data)⟩,
   ⟨some ("A".data), some ("2".data)⟩]

/-- Witness for the amended C9 at a concrete two-row CSV. -/
theorem claimC9_duplicates_amended_witness :
    (validateCSV c9Env c9RowsW).duplicates =
      [({ address := "A".data, indices := [1, 2] } : DupEntry)] :=
  (claimC9_duplicates_amended c9Env c9RowsW).2.2.2.2
    ⟨some ("A".data), some ("1".data)⟩ ⟨some ("A".data), some ("2".data)⟩
    ("A".data) (1000000000000000000) (2000000000000000000)
    (by decide) (by decide)

/-! ## Distribution engine (src/core/distributor.ts, TokenDistributor)

The chain client is abstracted as one `AttemptEnv` per transfer attempt
(the submit outcome and the number of new block headers observed within
the confirmation timeout), the operator decision provider as a function
from the consultation counter and the failure context to an action, and
the resume-state store as an event log. -/

structure DistributionSummary where
  totalRecords : Nat
  completed : Nat
  failed : Nat
  skipped : Nat
  totalAmount : Int
  distributedAmount : Int
  failedAmount : Int
  startTime : Unit := ()
  endTime : Option Unit := none
  resumedFrom : Option Nat := none
  abortedByUser : Option Bool := none
deriving DecidableEq, Repr

structure TransactionResult where
  success : Bool
  transactionHash : Option (List Char) := none
  blockHash : Option (List Char) := none
  blockNumber : Option Nat := none
  error : Option (List Char) := none
deriving DecidableEq, Repr

inductive FailureAction where
  | retry
  | skip
  | pause
  | abort
deriving DecidableEq, Repr

/-- Outcome of `transfer` + `signAndSendTx` for one attempt. -/
inductive SubmitOutcome where
  | accepted (identifier : Option (List Char)) (inBlockHash : Option (List Char))
      (blockNumber : Option Nat)
  | thrown (msg : List Char)
deriving DecidableEq, Repr

/-- Chain behavior during one transfer attempt. -/
structure AttemptEnv where
  submit : SubmitOutcome
  newHeadsWithinTimeout : Nat
deriving DecidableEq, Repr

structure AppConfig where
  confirmationBlocks : Nat
  batchSize : Nat
deriving DecidableEq, Repr

/-- Oracles for a run: the chain outcome of the n-th transfer attempt,
and the optional injected failure handler consulted with (consultation
counter, record, index, error message, attempts). -/
structure RunEnv where
  attempt : Nat → AttemptEnv
  failureHandler : Option (Nat → DistributionRecord → Nat → List Char → Nat → FailureAction)

/-- Resume-store interactions: `saveState(records, summary, index)` and
`clearState()`. -/
inductive REvent where
  | save (records : List DistributionRecord) (summary : DistributionSummary)
      (lastProcessedIndex : Nat)
  | clear
deriving DecidableEq, Repr

structure LoopState where
  records : List DistributionRecord
  summary : DistributionSummary
  i : Nat
  txCount : Nat
  decCount : Nat
  events : List REvent
deriving DecidableEq, Repr

inductive RunExit where
  | paused
  | aborted
  | completedRun
deriving DecidableEq, Repr

structure RunResult where
  final : LoopState
  exit : RunExit
deriving DecidableEq, Repr

inductive StepRes where
  | next (st : LoopState)
  | halt (res : RunResult)
deriving DecidableEq, Repr

/-- JavaScript `x || d` on an optional number. -/
def jsOrNat (x : Option Nat) (d : Nat) : Nat :=
  match x with
  | some n => if n = 0 then d else n
  | none => d

/-- JavaScript `x || d` on an optional string. -/
def jsOrStr (x : Option (List Char)) (d : List Char) : List Char :=
  match x with
  | some s => if s = [] then d else s
  | none => d

/-- `waitForConfirmation` (distributor.ts lines 255-286): the promise
resolves once the subscription has delivered `confirmationBlocks` new
heads (at least one), and rejects with the timeout error when fewer
arrive within the five-minute window. -/
def waitForConfirmation (confirmationBlocks : Nat) (newHeads : Nat) :
    Except (List Char) Unit :=
  if max confirmationBlocks 1 ≤ newHeads then .ok ()
  else .error ("Transaction confirmation timeout".data)

/-- `executeTransfer` (distributor.ts lines 218-253): submit, await
confirmation, and catch every failure into `success: false`. -/
def executeTransfer (cfg : AppConfig) (a : AttemptEnv) : TransactionResult :=
  match a.submit with
  | .thrown msg => { success := false, error := some msg }
  | .accepted ident inBlock bn =>
    match waitForConfirmation cfg.confirmationBlocks a.newHeadsWithinTimeout with
    | .error msg => { success := false, error := some msg }
    | .ok _ =>
      { success := true,
        transactionHash := some (jsOrStr ident ("unknown".data)),
        blockHash := inBlock,
        blockNumber := bn }

/-- `handleTransactionFailure` (distributor.ts lines 288-312): the
injected handler if any, else retry below three attempts and skip from
the third on. -/
def handleTransactionFailure (env : RunEnv) (consult : Nat)
    (record : DistributionRecord) (index : Nat) (errMsg : List Char)
    (attempts : Nat) : FailureAction :=
  match env.failureHandler with
  | some h => h consult record index errMsg attempts
  | none => if attempts < 3 then .retry else .skip

/-- Reset of a failed record on entry (distributor.ts lines 120-124):
status back to pending, error cleared, attempts kept. -/
def resetFailed (r : DistributionRecord) : DistributionRecord :=
  if r.status = .failed then { r with status := .pending, error := none } else r

def markProcessing (r : DistributionRecord) : DistributionRecord :=
  { r with status := .processing, timestamp := some () }

def applySuccess (r : DistributionRecord) (res : TransactionResult) :
    DistributionRecord :=
  { r with
    status := .completed,
    transactionHash := res.transactionHash,
    blockHash := res.blockHash,
    blockNumber := res.blockNumber }

def applyFailure (r : DistributionRecord) (errMsg : List Char) :
    DistributionRecord :=
  { r with
    status := .failed,
    error := some errMsg,
    attempts := some (jsOrNat r.attempts 0 + 1) }

/-- The periodic checkpoint guard `i % batchSize === 0`.  JavaScript
`%` on integers is the truncated remainder (`Int.tmod`), and `i % 0` is
NaN, which never equals 0. -/
def batchDue (j : Int) (batchSize : Nat) : Bool :=
  decide (batchSize ≠ 0) && decide (Int.tmod j (batchSize : Int) = 0)

/-- End of a loop iteration (distributor.ts lines 196-202): periodic
checkpoint at `j + 1` when `j` is a multiple of the batch size (`j` is
the possibly decremented loop variable), then the loop update sets the
index for the next iteration. -/
def afterAttempt (cfg : AppConfig) (st : LoopState) (j : Int) (nextI : Nat) :
    LoopState :=
  let st1 :=
    if batchDue j cfg.batchSize then
      { st with events := st.events ++ [.save st.records st.summary (j + 1).toNat] }
    else st
  { st1 with i := nextI }

/-- `pauseDistribution` (distributor.ts lines 314-322): checkpoint at
the current index, then the loop returns the summary unchanged. -/
def pauseDistribution (st : LoopState) : RunResult :=
  { final := { st with events := st.events ++ [.save st.records st.summary st.i] },
    exit := .paused }

/-- One iteration of the distribution loop (distributor.ts lines
111-202), at a state whose index is in range. -/
def stepIter (cfg : AppConfig) (env : RunEnv) (st : LoopState)
    (h : st.i < st.records.length) : StepRes :=
  let r := st.records.get ⟨st.i, h⟩
  if r.status = .completed then
    -- skip replayed records; `continue` bypasses checkpoint and delay
    .next { st with
      summary := { st.summary with skipped := st.summary.skipped + 1 },
      i := st.i + 1 }
  else
    let rp := markProcessing (resetFailed r)
    let result := executeTransfer cfg (env.attempt st.txCount)
    if result.success then
      let rc := applySuccess rp result
      let st1 := { st with
        records := st.records.set st.i rc,
        summary := { st.summary with
          completed := st.summary.completed + 1,
          distributedAmount := st.summary.distributedAmount + rc.amount },
        txCount := st.txCount + 1 }
      .next (afterAttempt cfg st1 (st.i : Int) (st.i + 1))
    else
      let errMsg := jsOrStr result.error ("Transaction failed".data)
      let rf := applyFailure rp errMsg
      let st1 := { st with
        records := st.records.set st.i rf,
        summary := { st.summary with
          failed := st.summary.failed + 1,
          failedAmount := st.summary.failedAmount + rf.amount },
        txCount := st.txCount + 1,
        decCount := st.decCount + 1 }
      match handleTransactionFailure env st.decCount rf st.i errMsg
          (jsOrNat rf.attempts 1) with
      | .retry => .next (afterAttempt cfg st1 ((st.i : Int) - 1) st.i)
      | .skip => .next (afterAttempt cfg st1 (st.i : Int) (st.i + 1))
      | .pause => .halt (pauseDistribution st1)
      | .abort =>
        let summaryA := { st1.summary with
          abortedByUser := some true, endTime := some () }
        .halt {
          final := { st1 with
            summary := summaryA,
            events := st1.events ++ [.save st1.records summaryA (st.i + 1)] },
          exit := .aborted }

/-- Normal loop completion (distributor.ts lines 205-211): stamp the
end time and clear all resume snapshots. -/
def finishRun (st : LoopState) : RunResult :=
  { final := { st with
      summary := { st.summary with endTime := some () },
      events := st.events ++ [.clear] },
    exit := .completedRun }

/-- The distribution loop, with fuel bounding the number of iterations
(`none` models a run that retries forever). -/
def loopGo (cfg : AppConfig) (env : RunEnv) :
    Nat → LoopState → Option RunResult
  | fuel, st =>
    if h : st.i < st.records.length then
      match fuel with
      | 0 => none
      | fuel + 1 =>
        match stepIter cfg env st h with
        | .next st2 => loopGo cfg env fuel st2
        | .halt res => some res
    else
      some (finishRun st)

def sumAmounts (records : List DistributionRecord) : Int :=
  records.foldl (fun sum record => sum + record.amount) 0

/-- `distribute` (distributor.ts lines 82-216). -/
def distribute (cfg : AppConfig) (env : RunEnv) (initialized : Bool)
    (records : List DistributionRecord) (resumeFromIndex : Nat) (fuel : Nat) :
    Except (List Char) (Option RunResult) :=
  if ¬ initialized then
    .error ("Distributor not initialized. Call initialize() first.".data)
  else
    let summary : DistributionSummary := {
      totalRecords := records.length,
      completed := 0, failed := 0, skipped := 0,
      totalAmount := sumAmounts records,
      distributedAmount := 0, failedAmount := 0,
      startTime := (),
      resumedFrom := if resumeFromIndex > 0 then some resumeFromIndex else none }
    let st0 : LoopState := {
      records := records, summary := summary, i := resumeFromIndex,
      txCount := 0, decCount := 0,
      events := [.save records summary resumeFromIndex] }
    .ok (loopGo cfg env fuel st0)

/-- Sum of the amounts of the records whose status is completed. -/
def sumCompleted (records : List DistributionRecord) : Int :=
  (records.map (fun r => if r.status = .completed then r.amount else 0)).sum

/-- The run outcome as it can be read off the returned summary. -/
def classifyOutcome (s : DistributionSummary) : RunExit :=
  if s.abortedByUser = some true then .aborted
  else if s.endTime.isSome then .completedRun
  else .paused

/-! Views of one loop iteration, used to state the claims. -/

def recordAt (st : LoopState) (h : st.i < st.records.length) :
    DistributionRecord :=
  st.records.get ⟨st.i, h⟩

def attemptResult (cfg : AppConfig) (env : RunEnv) (st : LoopState) :
    TransactionResult :=
  executeTransfer cfg (env.attempt st.txCount)

def stepErrMsg (cfg : AppConfig) (env : RunEnv) (st : LoopState) : List Char :=
  jsOrStr (attemptResult cfg env st).error ("Transaction failed".data)

def succRecord (cfg : AppConfig) (env : RunEnv) (st : LoopState)
    (h : st.i < st.records.length) : DistributionRecord :=
  applySuccess (markProcessing (resetFailed (recordAt st h)))
    (attemptResult cfg env st)

def failRecord (cfg : AppConfig) (env : RunEnv) (st : LoopState)
    (h : st.i < st.records.length) : DistributionRecord :=
  applyFailure (markProcessing (resetFailed (recordAt st h)))
    (stepErrMsg cfg env st)

def skipState (st : LoopState) : LoopState :=
  { st with
    summary := { st.summary with skipped := st.summary.skipped + 1 },
    i := st.i + 1 }

def successState (cfg : AppConfig) (env : RunEnv) (st : LoopState)
    (h : st.i < st.records.length) : LoopState :=
  { st with
    records := st.records.set st.i (succRecord cfg env st h),
    summary := { st.summary with
      completed := st.summary.completed + 1,
      distributedAmount := st.summary.distributedAmount +
        (succRecord cfg env st h).amount },
    txCount := st.txCount + 1 }

def failureState (cfg : AppConfig) (env : RunEnv) (st : LoopState)
    (h : st.i < st.records.length) : LoopState :=
  { st with
    records := st.records.set st.i (failRecord cfg env st h),
    summary := { st.summary with
      failed := st.summary.failed + 1,
      failedAmount := st.summary.failedAmount + (failRecord cfg env st h).amount },
    txCount := st.txCount + 1,
    decCount := st.decCount + 1 }

def failureAction (cfg : AppConfig) (env : RunEnv) (st : LoopState)
    (h : st.i < st.records.length) : FailureAction :=
  handleTransactionFailure env st.decCount (failRecord cfg env st h) st.i
    (stepErrMsg cfg env st) (jsOrNat (failRecord cfg env st h).attempts 1)

def abortResult (cfg : AppConfig) (env : RunEnv) (st : LoopState)
    (h : st.i < st.records.length) : RunResult :=
  { final := { failureState cfg env st h with
      summary := { (failureState cfg env st h).summary with
        abortedByUser := some true, endTime := some () },
      events := (failureState cfg env st h).events ++
        [.save (failureState cfg env st h).records
          { (failureState cfg env st h).summary with
            abortedByUser := some true, endTime := some () }
          (st.i + 1)] },
    exit := .aborted }

/-- Exhaustive case analysis of one loop iteration. -/
theorem stepIter_cases (cfg : AppConfig) (env : RunEnv) (st : LoopState)
    (h : st.i < st.records.length) :
    ((recordAt st h).status = .completed ∧
      stepIter cfg env st h = .next (skipState st)) ∨
    ((recordAt st h).status ≠ .completed ∧
      (attemptResult cfg env st).success = true ∧
      stepIter cfg env st h =
        .next (afterAttempt cfg (successState cfg env st h) (st.i : Int) (st.i + 1))) ∨
    ((recordAt st h).status ≠ .completed ∧
      (attemptResult cfg env st).success = false ∧
      ((failureAction cfg env st h = .retry ∧
        stepIter cfg env st h =
          .next (afterAttempt cfg (failureState cfg env st h)
            ((st.i : Int) - 1) st.i)) ∨
       (failureAction cfg env st h = .skip ∧
        stepIter cfg env st h =
          .next (afterAttempt cfg (failureState cfg env st h)
            (st.i : Int) (st.i + 1))) ∨
       (failureAction cfg env st h = .pause ∧
        stepIter cfg env st h = .halt (pauseDistribution (failureState cfg env st h))) ∨
       (failureAction cfg env st h = .abort ∧
        stepIter cfg env st h = .halt (abortResult cfg env st h)))) := by
  by_cases hc : (recordAt st h).status = .completed
  · left
    refine ⟨hc, ?_⟩
    unfold stepIter skipState
    unfold recordAt at hc
    simp only [hc, eq_self_iff_true, if_true]
  · right
    by_cases hs : (attemptResult cfg env st).success = true
    · left
      refine ⟨hc, hs, ?_⟩
      unfold stepIter
      unfold recordAt at hc
      unfold attemptResult at hs
      simp only [if_neg hc, hs, if_true]
      unfold successState succRecord attemptResult recordAt
      rfl
    · right
      have hs2 : (attemptResult cfg env st).success = false := by
        simpa using hs
      refine ⟨hc, hs2, ?_⟩
      have hstep : stepIter cfg env st h =
          match failureAction cfg env st h with
          | .retry => .next (afterAttempt cfg (failureState cfg env st h)
              ((st.i : Int) - 1) st.i)
          | .skip => .next (afterAttempt cfg (failureState cfg env st h)
              (st.i : Int) (st.i + 1))
          | .pause => .halt (pauseDistribution (failureState cfg env st h))
          | .abort => .halt (abortResult cfg env st h) := by
        unfold stepIter
        unfold recordAt at hc
        unfold attemptResult at hs2
        simp only [if_neg hc, hs2, Bool.false_eq_true, if_false]
        unfold failureAction failureState failRecord stepErrMsg attemptResult
          recordAt abortResult failureState failRecord stepErrMsg attemptResult
          recordAt
        rfl
      cases hact : failureAction cfg env st h with
      | retry =>
        left
        exact ⟨rfl, by rw [hstep, hact]⟩
      | skip =>
        right
        left
        exact ⟨rfl, by rw [hstep, hact]⟩
      | pause =>
        right
        right
        left
        exact ⟨rfl, by rw [hstep, hact]⟩
      | abort =>
        right
        right
        right
        exact ⟨rfl, by rw [hstep, hact]⟩

theorem afterAttempt_proj (cfg : AppConfig) (st : LoopState) (j : Int) (n : Nat) :
    (afterAttempt cfg st j n).records = st.records ∧
    (afterAttempt cfg st j n).summary = st.summary ∧
    (afterAttempt cfg st j n).i = n ∧
    (afterAttempt cfg st j n).txCount = st.txCount ∧
    (afterAttempt cfg st j n).decCount = st.decCount ∧
    ((afterAttempt cfg st j n).events = st.events ∨
      (afterAttempt cfg st j n).events =
        st.events ++ [.save st.records st.summary (j + 1).toNat]) := by
  unfold afterAttempt
  by_cases hb : batchDue j cfg.batchSize
  · simp [hb]
  · simp [hb]

/-- Invariant propagation through the fueled loop. -/
theorem loopGo_inv (cfg : AppConfig) (env : RunEnv)
    (P : LoopState → Prop) (Q : RunResult → Prop)
    (hstep : ∀ st h, P st →
      (∀ st2, stepIter cfg env st h = .next st2 → P st2) ∧
      (∀ res, stepIter cfg env st h = .halt res → Q res))
    (hfin : ∀ st, P st → ¬ st.i < st.records.length → Q (finishRun st)) :
    ∀ fuel st res, P st → loopGo cfg env fuel st = some res → Q res := by
  intro fuel
  induction fuel with
  | zero =>
    intro st res hP hrun
    unfold loopGo at hrun
    split at hrun
    · simp at hrun
    · cases hrun
      exact hfin st hP (by assumption)
  | succ fuel ih =>
    intro st res hP hrun
    unfold loopGo at hrun
    split at hrun
    · rename_i hlt
      cases hsi : stepIter cfg env st hlt with
      | next st2 =>
        rw [hsi] at hrun
        exact ih st2 res ((hstep st hlt hP).1 st2 hsi) hrun
      | halt r =>
        rw [hsi] at hrun
        cases hrun
        exact (hstep st hlt hP).2 _ hsi
    · cases hrun
      exact hfin st hP (by assumption)

theorem resetFailed_amount (r : DistributionRecord) :
    (resetFailed r).amount = r.amount := by
  unfold resetFailed
  split <;> rfl

theorem resetFailed_attempts (r : DistributionRecord) :
    (resetFailed r).attempts = r.attempts := by
  unfold resetFailed
  split <;> rfl

theorem succRecord_amount (cfg : AppConfig) (env : RunEnv) (st : LoopState)
    (h : st.i < st.records.length) :
    (succRecord cfg env st h).amount = (recordAt st h).amount := by
  unfold succRecord applySuccess markProcessing
  simp [resetFailed_amount]

theorem succRecord_status (cfg : AppConfig) (env : RunEnv) (st : LoopState)
    (h : st.i < st.records.length) :
    (succRecord cfg env st h).status = .completed := rfl

theorem succRecord_attempts (cfg : AppConfig) (env : RunEnv) (st : LoopState)
    (h : st.i < st.records.length) :
    (succRecord cfg env st h).attempts = (recordAt st h).attempts := by
  unfold succRecord applySuccess markProcessing
  simp [resetFailed_attempts]

theorem failRecord_amount (cfg : AppConfig) (env : RunEnv) (st : LoopState)
    (h : st.i < st.records.length) :
    (failRecord cfg env st h).amount = (recordAt st h).amount := by
  unfold failRecord applyFailure markProcessing
  simp [resetFailed_amount]

theorem failRecord_status (cfg : AppConfig) (env : RunEnv) (st : LoopState)
    (h : st.i < st.records.length) :
    (failRecord cfg env st h).status = .failed := rfl

theorem failRecord_error (cfg : AppConfig) (env : RunEnv) (st : LoopState)
    (h : st.i < st.records.length) :
    (failRecord cfg env st h).error = some (stepErrMsg cfg env st) := rfl

theorem failRecord_attempts (cfg : AppConfig) (env : RunEnv) (st : LoopState)
    (h : st.i < st.records.length) :
    (failRecord cfg env st h).attempts =
      some (jsOrNat (recordAt st h).attempts 0 + 1) := by
  unfold failRecord applyFailure markProcessing
  simp [resetFailed_attempts]

theorem sumCompleted_cons (r : DistributionRecord)
    (t : List DistributionRecord) :
    sumCompleted (r :: t) =
      (if r.status = .completed then r.amount else 0) + sumCompleted t := by
  simp [sumCompleted]

theorem sumCompleted_set (recs : List DistributionRecord) :
    ∀ (i : Nat) (r' : DistributionRecord) (h : i < recs.length),
    sumCompleted (recs.set i r') = sumCompleted recs
      - (if (recs.get ⟨i, h⟩).status = .completed
          then (recs.get ⟨i, h⟩).amount else 0)
      + (if r'.status = .completed then r'.amount else 0) := by
  induction recs with
  | nil =>
    intro i r' h
    simp at h
  | cons a t ih =>
    intro i r' h
    cases i with
    | zero =>
      simp only [List.set_cons_zero, sumCompleted_cons, List.get]
      ring
    | succ n =>
      have hn : n < t.length := by
        simpa using h
      simp only [List.set_cons_succ, sumCompleted_cons, List.get]
      rw [ih n r' hn]
      ring

/-- The per-claim summary facts tracked by the C1 invariant. -/
def summaryOkC1 (base : Int) (recs : List DistributionRecord)
    (s : DistributionSummary) : Prop :=
  s.completed + s.skipped ≤ s.totalRecords ∧
  s.distributedAmount = sumCompleted recs - base

/-- Every checkpointed snapshot satisfies the C1 facts. -/
def eventOkC1 (base : Int) : REvent → Prop
  | .save recs s _ => summaryOkC1 base recs s
  | .clear => True

def invC1 (N : Nat) (base : Int) (st : LoopState) : Prop :=
  st.summary.totalRecords = N ∧
  st.records.length = N ∧
  st.summary.completed + st.summary.skipped ≤ N ∧
  (st.i < N → st.summary.completed + st.summary.skipped ≤ st.i) ∧
  st.summary.distributedAmount = sumCompleted st.records - base ∧
  (∀ e ∈ st.events, eventOkC1 base e)

theorem invC1_afterAttempt (cfg : AppConfig) (N : Nat) (base : Int)
    (stX : LoopState) (j : Int) (n : Nat)
    (h1 : stX.summary.totalRecords = N)
    (h2 : stX.records.length = N)
    (h3 : stX.summary.completed + stX.summary.skipped ≤ N)
    (h4 : n < N → stX.summary.completed + stX.summary.skipped ≤ n)
    (h5 : stX.summary.distributedAmount = sumCompleted stX.records - base)
    (h6 : ∀ e ∈ stX.events, eventOkC1 base e) :
    invC1 N base (afterAttempt cfg stX j n) := by
  obtain ⟨hr, hs, hi, _, _, hev⟩ := afterAttempt_proj cfg stX j n
  refine ⟨by rw [hs]; exact h1, by rw [hr]; exact h2, by rw [hs]; exact h3,
    by rw [hs, hi]; exact h4, by rw [hs, hr]; exact h5, ?_⟩
  intro e he
  rcases hev with hev | hev
  · exact h6 e (by rw [hev] at he; exact he)
  · rw [hev] at he
    rcases List.mem_append.mp he with h7 | h7
    · exact h6 e h7
    · have : e = REvent.save stX.records stX.summary (j + 1).toNat := by
        simpa using h7
      rw [this]
      exact ⟨by rw [h1]; exact h3, h5⟩

/-- Facts about the state after a failed attempt. -/
theorem failureState_summary (cfg : AppConfig) (env : RunEnv) (st : LoopState)
    (h : st.i < st.records.length) :
    (failureState cfg env st h).summary.completed = st.summary.completed ∧
    (failureState cfg env st h).summary.skipped = st.summary.skipped ∧
    (failureState cfg env st h).summary.totalRecords = st.summary.totalRecords ∧
    (failureState cfg env st h).summary.distributedAmount =
      st.summary.distributedAmount ∧
    (failureState cfg env st h).records.length = st.records.length ∧
    (failureState cfg env st h).events = st.events ∧
    (failureState cfg env st h).i = st.i := by
  unfold failureState
  simp

theorem sumCompleted_failureState (cfg : AppConfig) (env : RunEnv)
    (st : LoopState) (h : st.i < st.records.length)
    (hc : (recordAt st h).status ≠ .completed) :
    sumCompleted (failureState cfg env st h).records = sumCompleted st.records := by
  unfold failureState
  simp only
  rw [sumCompleted_set st.records st.i (failRecord cfg env st h) h]
  rw [if_neg (by unfold recordAt at hc; exact hc)]
  rw [if_neg (by rw [failRecord_status]; intro hcon; cases hcon)]
  ring

theorem sumCompleted_successState (cfg : AppConfig) (env : RunEnv)
    (st : LoopState) (h : st.i < st.records.length)
    (hc : (recordAt st h).status ≠ .completed) :
    sumCompleted (successState cfg env st h).records =
      sumCompleted st.records + (succRecord cfg env st h).amount := by
  unfold successState
  simp only
  rw [sumCompleted_set st.records st.i (succRecord cfg env st h) h]
  rw [if_neg (by unfold recordAt at hc; exact hc)]
  rw [if_pos (succRecord_status cfg env st h)]
  ring

/-- One-step preservation of the C1 invariant. -/
theorem invC1_step (cfg : AppConfig) (env : RunEnv) (N : Nat) (base : Int)
    (st : LoopState) (h : st.i < st.records.length) (hP : invC1 N base st) :
    (∀ st2, stepIter cfg env st h = .next st2 → invC1 N base st2) ∧
    (∀ res, stepIter cfg env st h = .halt res →
      summaryOkC1 base res.final.records res.final.summary ∧
      ∀ e ∈ res.final.events, eventOkC1 base e) := by
  obtain ⟨hTot, hLen, hCS, hCSi, hDist, hEv⟩ := hP
  have hiN : st.i < N := by rw [← hLen]; exact h
  have hci : st.summary.completed + st.summary.skipped ≤ st.i := hCSi hiN
  rcases stepIter_cases cfg env st h with ⟨hc, heq⟩ | ⟨hc, hs, heq⟩ | ⟨hc, hs, hrest⟩
  · constructor
    · intro st2 hnext
      rw [heq] at hnext
      cases hnext
      unfold skipState invC1
      simp only
      refine ⟨hTot, hLen, by omega, fun _ => by omega, hDist, hEv⟩
    · intro res hhalt
      rw [heq] at hhalt
      cases hhalt
  · constructor
    · intro st2 hnext
      rw [heq] at hnext
      cases hnext
      apply invC1_afterAttempt
      · exact hTot
      · unfold successState
        simpa using hLen
      · unfold successState
        simp only
        omega
      · unfold successState
        simp only
        intro _
        omega
      · rw [sumCompleted_successState cfg env st h hc]
        unfold successState
        simp only
        rw [hDist]
        ring
      · unfold successState
        simpa using hEv
    · intro res hhalt
      rw [heq] at hhalt
      cases hhalt
  · have hFsum : summaryOkC1 base (failureState cfg env st h).records
        (failureState cfg env st h).summary := by
      obtain ⟨f1, f2, f3, f4, _, _, _⟩ := failureState_summary cfg env st h
      constructor
      · rw [f1, f2, f3, hTot]
        omega
      · rw [f4, sumCompleted_failureState cfg env st h hc]
        exact hDist
    obtain ⟨f1, f2, f3, f4, f5, f6, f7⟩ := failureState_summary cfg env st h
    rcases hrest with ⟨hact, heq⟩ | ⟨hact, heq⟩ | ⟨hact, heq⟩ | ⟨hact, heq⟩
    · constructor
      · intro st2 hnext
        rw [heq] at hnext
        cases hnext
        apply invC1_afterAttempt
        · rw [f3, hTot]
        · rw [f5, hLen]
        · rw [f1, f2]
          omega
        · rw [f1, f2]
          intro _
          exact hci
        · rw [sumCompleted_failureState cfg env st h hc]
          rw [f4]
          exact hDist
        · rw [f6]
          exact hEv
      · intro res hhalt
        rw [heq] at hhalt
        cases hhalt
    · constructor
      · intro st2 hnext
        rw [heq] at hnext
        cases hnext
        apply invC1_afterAttempt
        · rw [f3, hTot]
        · rw [f5, hLen]
        · rw [f1, f2]
          omega
        · rw [f1, f2]
          intro _
          omega
        · rw [sumCompleted_failureState cfg env st h hc]
          rw [f4]
          exact hDist
        · rw [f6]
          exact hEv
      · intro res hhalt
        rw [heq] at hhalt
        cases hhalt
    · constructor
      · intro st2 hnext
        rw [heq] at hnext
        cases hnext
      · intro res hhalt
        rw [heq] at hhalt
        cases hhalt
        unfold pauseDistribution
        simp only
        refine ⟨hFsum, ?_⟩
        intro e he
        rw [f6] at he
        rcases List.mem_append.mp he with h7 | h7
        · exact hEv e h7
        · have he2 : e = REvent.save (failureState cfg env st h).records
              (failureState cfg env st h).summary (failureState cfg env st h).i := by
            simpa using h7
          rw [he2]
          exact hFsum
    · constructor
      · intro st2 hnext
        rw [heq] at hnext
        cases hnext
      · intro res hhalt
        rw [heq] at hhalt
        cases hhalt
        unfold abortResult
        simp only
        constructor
        · constructor
          · have := hFsum.1
            simpa using this
          · have := hFsum.2
            simpa using this
        · intro e he
          rcases List.mem_append.mp he with h7 | h7
          · rw [f6] at h7
            exact hEv e h7
          · have he2 := h7
            simp only [List.mem_singleton] at he2
            rw [he2]
            refine ⟨?_, ?_⟩
            · have := hFsum.1
              simpa using this
            · have := hFsum.2
              simpa using this

/-- **C1** (amended). In any run of `distribute` over `records` from
`resumeFromIndex` that returns a result, the returned summary satisfies
`completed + skipped ≤ totalRecords`, and `distributedAmount` equals the
sum of `amount` over completed records in the final record list *minus*
the sum over records already completed on entry; the same holds of the
summary and record snapshot of every resume checkpoint written during
the run. (The original claim's `completed + failed + skipped ≤
totalRecords` and `distributedAmount = sum over completed records` both
fail: a fail-then-retry-then-succeed sequence counts the same record in
both `failed` and `completed`, and on a resumed run the pre-completed
records are skipped without being added to `distributedAmount`; see the
counterexample.) -/
theorem claimC1_amended (cfg : AppConfig) (env : RunEnv)
    (records : List DistributionRecord) (resumeFromIndex fuel : Nat)
    (res : RunResult)
    (hrun : distribute cfg env true records resumeFromIndex fuel =
      .ok (some res)) :
    (res.final.summary.completed + res.final.summary.skipped ≤
        res.final.summary.totalRecords ∧
      res.final.summary.distributedAmount =
        sumCompleted res.final.records - sumCompleted records) ∧
    ∀ e ∈ res.final.events, eventOkC1 (sumCompleted records) e := by
  unfold distribute at hrun
  rw [if_neg (by simp)] at hrun
  simp only [Except.ok.injEq] at hrun
  have key :
      ∀ fuel st r, invC1 records.length (sumCompleted records) st →
        loopGo cfg env fuel st = some r →
        (summaryOkC1 (sumCompleted records) r.final.records r.final.summary ∧
          ∀ e ∈ r.final.events, eventOkC1 (sumCompleted records) e) := by
    apply loopGo_inv
    · intro st h hP
      exact invC1_step cfg env records.length (sumCompleted records) st h hP
    · intro st hP _
      obtain ⟨hTot, _, hCS, _, hDist, hEv⟩ := hP
      unfold finishRun
      simp only
      refine ⟨⟨by rw [hTot]; exact hCS, hDist⟩, ?_⟩
      intro e he
      rcases List.mem_append.mp he with h7 | h7
      · exact hEv e h7
      · have : e = REvent.clear := by simpa using h7
        rw [this]
        trivial
  have hinv : invC1 records.length (sumCompleted records)
      { records := records,
        summary := {
          totalRecords := records.length,
          completed := 0, failed := 0, skipped := 0,
          totalAmount := sumAmounts records,
          distributedAmount := 0, failedAmount := 0,
          startTime := (),
          resumedFrom :=
            if resumeFromIndex > 0 then some resumeFromIndex else none },
        i := resumeFromIndex, txCount := 0, decCount := 0,
        events := [.save records
          { totalRecords := records.length,
            completed := 0, failed := 0, skipped := 0,
            totalAmount := sumAmounts records,
            distributedAmount := 0, failedAmount := 0,
            startTime := (),
            resumedFrom :=
              if resumeFromIndex > 0 then some resumeFromIndex else none }
          resumeFromIndex] } := by
    refine ⟨rfl, rfl, by simp, fun _ => by simp, by simp, ?_⟩
    intro e he
    have : e = REvent.save records
        { totalRecords := records.length,
          completed := 0, failed := 0, skipped := 0,
          totalAmount := sumAmounts records,
          distributedAmount := 0, failedAmount := 0,
          startTime := (),
          resumedFrom :=
            if resumeFromIndex > 0 then some resumeFromIndex else none }
        resumeFromIndex := by simpa using he
    rw [this]
    exact ⟨by simp, by simp⟩
  exact key fuel _ res hinv hrun

/-! Concrete run refuting the original C1: a resumed record list with one
already-completed record and one pending record whose first attempt throws,
the failure handler always retrying. -/

def c1Recs : List DistributionRecord :=
  [{ address := "B".data, amount := 5, status := .completed },
   { address := "C".data, amount := 3, status := .pending }]

def c1Cfg : AppConfig := { confirmationBlocks := 1, batchSize := 10 }

def c1Env : RunEnv :=
  { attempt := fun n =>
      if n = 0 then
        { submit := .thrown ("boom".data), newHeadsWithinTimeout := 0 }
      else
        { submit := .accepted (some ("h".data)) none (some 7),
          newHeadsWithinTimeout := 5 },
    failureHandler := some (fun _ _ _ _ _ => .retry) }

/-- The result of the run above (with an unreachable default arm). -/
def c1Res : RunResult :=
  match distribute c1Cfg c1Env true c1Recs 0 6 with
  | .ok (some r) => r
  | _ =>
    { final :=
        { records := [],
          summary :=
            { totalRecords := 0
              completed := 0
              failed := 0
              skipped := 0
              totalAmount := 0
              distributedAmount := 0
              failedAmount := 0 },
          i := 0, txCount := 0, decCount := 0, events := [] },
      exit := .completedRun }

/-- **C1** counterexample: on the run above the final summary has
`completed = 1`, `failed = 1`, `skipped = 1` with `totalRecords = 2`, so
`completed + failed + skipped ≤ totalRecords` fails, and
`distributedAmount = 3` while the sum of `amount` over completed records
is `5 + 3 = 8`, so `distributedAmount` is not the sum over completed
records. -/
theorem claimC1_counterexample :
    distribute c1Cfg c1Env true c1Recs 0 6 = .ok (some c1Res) ∧
    c1Res.final.summary.totalRecords <
      c1Res.final.summary.completed + c1Res.final.summary.failed +
        c1Res.final.summary.skipped ∧
    c1Res.final.summary.distributedAmount ≠ sumCompleted c1Res.final.records := by
  refine ⟨by decide, by decide, by decide⟩

theorem claimC1_amended_witness :
    (c1Res.final.summary.completed + c1Res.final.summary.skipped ≤
        c1Res.final.summary.totalRecords ∧
      c1Res.final.summary.distributedAmount =
        sumCompleted c1Res.final.records - sumCompleted c1Recs) ∧
    ∀ e ∈ c1Res.final.events, eventOkC1 (sumCompleted c1Recs) e :=
  claimC1_amended c1Cfg c1Env c1Recs 0 6 c1Res (by decide)

/-! **C2**: the three loop outcomes as read off the returned result. -/

/-- Shape of a run outcome: what pause / abort / completion each leave in
the summary and in the resume-store interaction log, and that
`classifyOutcome` recovers the exit kind from the summary alone. -/
def exitShape (res : RunResult) : Prop :=
  (res.exit = .paused →
    res.final.summary.endTime = none ∧
    res.final.summary.abortedByUser = none ∧
    ∃ evs, res.final.events =
      evs ++ [.save res.final.records res.final.summary res.final.i]) ∧
  (res.exit = .aborted →
    res.final.summary.endTime = some () ∧
    res.final.summary.abortedByUser = some true ∧
    ∃ evs, res.final.events =
      evs ++ [.save res.final.records res.final.summary (res.final.i + 1)]) ∧
  (res.exit = .completedRun →
    res.final.summary.endTime = some () ∧
    res.final.summary.abortedByUser = none ∧
    ∃ evs, res.final.events = evs ++ [.clear]) ∧
  classifyOutcome res.final.summary = res.exit

theorem failureState_summary2 (cfg : AppConfig) (env : RunEnv) (st : LoopState)
    (h : st.i < st.records.length) :
    (failureState cfg env st h).summary.endTime = st.summary.endTime ∧
    (failureState cfg env st h).summary.abortedByUser =
      st.summary.abortedByUser := by
  unfold failureState
  simp

theorem c2_step (cfg : AppConfig) (env : RunEnv) (st : LoopState)
    (h : st.i < st.records.length)
    (hP : st.summary.endTime = none ∧ st.summary.abortedByUser = none) :
    (∀ st2, stepIter cfg env st h = .next st2 →
      st2.summary.endTime = none ∧ st2.summary.abortedByUser = none) ∧
    (∀ res, stepIter cfg env st h = .halt res → exitShape res) := by
  obtain ⟨hEnd, hAb⟩ := hP
  obtain ⟨fEnd, fAb⟩ := failureState_summary2 cfg env st h
  rcases stepIter_cases cfg env st h with ⟨hc, heq⟩ | ⟨hc, hs, heq⟩ | ⟨hc, hs, hrest⟩
  · constructor
    · intro st2 hnext
      rw [heq] at hnext
      cases hnext
      unfold skipState
      simp only
      exact ⟨hEnd, hAb⟩
    · intro res hhalt
      rw [heq] at hhalt
      cases hhalt
  · constructor
    · intro st2 hnext
      rw [heq] at hnext
      cases hnext
      rw [(afterAttempt_proj cfg (successState cfg env st h) (st.i : Int)
        (st.i + 1)).2.1]
      unfold successState
      simp only
      exact ⟨hEnd, hAb⟩
    · intro res hhalt
      rw [heq] at hhalt
      cases hhalt
  · rcases hrest with ⟨hact, heq⟩ | ⟨hact, heq⟩ | ⟨hact, heq⟩ | ⟨hact, heq⟩
    · constructor
      · intro st2 hnext
        rw [heq] at hnext
        cases hnext
        rw [(afterAttempt_proj cfg (failureState cfg env st h)
          ((st.i : Int) - 1) st.i).2.1]
        exact ⟨by rw [fEnd]; exact hEnd, by rw [fAb]; exact hAb⟩
      · intro res hhalt
        rw [heq] at hhalt
        cases hhalt
    · constructor
      · intro st2 hnext
        rw [heq] at hnext
        cases hnext
        rw [(afterAttempt_proj cfg (failureState cfg env st h)
          (st.i : Int) (st.i + 1)).2.1]
        exact ⟨by rw [fEnd]; exact hEnd, by rw [fAb]; exact hAb⟩
      · intro res hhalt
        rw [heq] at hhalt
        cases hhalt
    · constructor
      · intro st2 hnext
        rw [heq] at hnext
        cases hnext
      · intro res hhalt
        rw [heq] at hhalt
        cases hhalt
        unfold exitShape pauseDistribution
        simp only
        refine ⟨?_, ?_, ?_, ?_⟩
        · intro _
          exact ⟨by rw [fEnd]; exact hEnd, by rw [fAb]; exact hAb,
            (failureState cfg env st h).events, rfl⟩
        · intro hcon
          cases hcon
        · intro hcon
          cases hcon
        · unfold classifyOutcome
          rw [if_neg (by rw [fAb, hAb]; intro hcon; cases hcon)]
          rw [if_neg (by rw [fEnd, hEnd]; intro hcon; cases hcon)]
    · constructor
      · intro st2 hnext
        rw [heq] at hnext
        cases hnext
      · intro res hhalt
        rw [heq] at hhalt
        cases hhalt
        unfold exitShape abortResult
        simp only
        refine ⟨?_, ?_, ?_, ?_⟩
        · intro hcon
          cases hcon
        · intro _
          exact ⟨by trivial, by trivial, (failureState cfg env st h).events, rfl⟩
        · intro hcon
          cases hcon
        · unfold classifyOutcome
          rw [if_pos rfl]

/-- **C2**: in any run of `distribute` that returns a result, a `pause`
decision returns the summary with `endTime` unset and `abortedByUser`
unset and the last store interaction is a checkpoint at the current
index; an `abort` decision returns the summary with `endTime` set and
`abortedByUser = true` and the last store interaction is a checkpoint at
index + 1; normal loop completion sets `endTime`, leaves `abortedByUser`
unset and ends with clearing all resume snapshots. `classifyOutcome`
recovers the exit kind from the returned summary alone, so the three
outcomes are pairwise distinguishable. -/
theorem claimC2_exit_outcomes (cfg : AppConfig) (env : RunEnv)
    (records : List DistributionRecord) (resumeFromIndex fuel : Nat)
    (res : RunResult)
    (hrun : distribute cfg env true records resumeFromIndex fuel =
      .ok (some res)) :
    exitShape res := by
  unfold distribute at hrun
  rw [if_neg (by simp)] at hrun
  simp only [Except.ok.injEq] at hrun
  have key :
      ∀ fuel st r,
        (st.summary.endTime = none ∧ st.summary.abortedByUser = none) →
        loopGo cfg env fuel st = some r → exitShape r := by
    apply loopGo_inv
    · intro st h hP
      exact c2_step cfg env st h hP
    · intro st hP _
      obtain ⟨hEnd, hAb⟩ := hP
      unfold exitShape finishRun
      simp only
      refine ⟨?_, ?_, ?_, ?_⟩
      · intro hcon
        cases hcon
      · intro hcon
        cases hcon
      · intro _
        exact ⟨by trivial, hAb, st.events, rfl⟩
      · unfold classifyOutcome
        rw [if_neg (by rw [hAb]; intro hcon; cases hcon)]
        rw [if_pos (by simp)]
  exact key fuel _ res ⟨rfl, rfl⟩ hrun

/-! A concrete pausing run for the C2 witness. -/

def c2Recs : List DistributionRecord :=
  [{ address := "C".data, amount := 3, status := .pending }]

def c2Env : RunEnv :=
  { attempt := fun _ =>
      { submit := .thrown ("boom".data), newHeadsWithinTimeout := 0 },
    failureHandler := some (fun _ _ _ _ _ => .pause) }

def c2Res : RunResult :=
  match distribute c1Cfg c2Env true c2Recs 0 3 with
  | .ok (some r) => r
  | _ =>
    { final :=
        { records := [],
          summary :=
            { totalRecords := 0
              completed := 0
              failed := 0
              skipped := 0
              totalAmount := 0
              distributedAmount := 0
              failedAmount := 0 },
          i := 0, txCount := 0, decCount := 0, events := [] },
      exit := .completedRun }

theorem claimC2_exit_outcomes_witness : exitShape c2Res :=
  claimC2_exit_outcomes c1Cfg c2Env c2Recs 0 3 c2Res (by decide)

/-! **C3**: failed records are reset and retried in place; completed
records are skipped. -/

theorem resetFailed_of_failed (r : DistributionRecord)
    (hr : r.status = .failed) :
    (resetFailed r).status = .pending ∧ (resetFailed r).error = none := by
  unfold resetFailed
  rw [if_pos hr]
  exact ⟨rfl, rfl⟩

theorem resetFailed_idem (r : DistributionRecord) :
    resetFailed (resetFailed r) = resetFailed r := by
  unfold resetFailed
  by_cases hs : r.status = .failed
  · rw [if_pos hs]
    rw [if_neg (by simp)]
  · rw [if_neg hs, if_neg hs]

/-- An iteration at a failed record behaves exactly as at the state where
that record was already reset to pending. -/
theorem stepIter_reset_eq (cfg : AppConfig) (env : RunEnv) (st : LoopState)
    (h : st.i < st.records.length)
    (hf : (recordAt st h).status = .failed)
    (h2 : st.i < (st.records.set st.i (resetFailed (recordAt st h))).length) :
    stepIter cfg env st h =
      stepIter cfg env
        { st with records := st.records.set st.i (resetFailed (recordAt st h)) }
        h2 := by
  have hb : st.i < st.records.length := h
  have hf2 : st.records[st.i].status = Status.failed := hf
  have hstat2 : (resetFailed st.records[st.i]).status = Status.pending :=
    (resetFailed_of_failed _ hf2).1
  have h3 : st.i <
      (st.records.set st.i (resetFailed st.records[st.i])).length := by
    simpa using h
  have hg2 : (st.records.set st.i (resetFailed st.records[st.i]))[st.i] =
      resetFailed st.records[st.i] := by
    simp
  unfold stepIter
  simp [recordAt, hf2, hstat2, hg2, resetFailed_idem, List.set_set]

/-- **C3**: a record that is `failed` when the loop reaches it is reset to
`pending` with its error cleared and its attempts preserved, and the
iteration is the same as on the state whose record was already reset; the
transfer is then attempted in that same iteration, before the loop index
can move past it (one attempt is consumed, the index advances by at most
one, and the record slot is overwritten with the outcome of an attempt on
the reset record); a record that is `completed` is instead skipped:
`summary.skipped` is incremented, no attempt is consumed and the records
are untouched. -/
theorem claimC3_failed_reset (cfg : AppConfig) (env : RunEnv) (st : LoopState)
    (h : st.i < st.records.length) :
    ((recordAt st h).status = .failed →
      (resetFailed (recordAt st h)).status = .pending ∧
      (resetFailed (recordAt st h)).error = none ∧
      (resetFailed (recordAt st h)).attempts = (recordAt st h).attempts ∧
      (∀ h2 : st.i < (st.records.set st.i (resetFailed (recordAt st h))).length,
        stepIter cfg env st h =
          stepIter cfg env
            { st with records :=
                st.records.set st.i (resetFailed (recordAt st h)) } h2) ∧
      (∀ st2, stepIter cfg env st h = .next st2 →
        st2.txCount = st.txCount + 1 ∧ st2.i ≤ st.i + 1 ∧
        (st2.records = st.records.set st.i
            (applySuccess (markProcessing (resetFailed (recordAt st h)))
              (attemptResult cfg env st)) ∨
          st2.records = st.records.set st.i
            (applyFailure (markProcessing (resetFailed (recordAt st h)))
              (stepErrMsg cfg env st)))) ∧
      (∀ res, stepIter cfg env st h = .halt res →
        res.final.txCount = st.txCount + 1 ∧
        res.final.records = st.records.set st.i
          (applyFailure (markProcessing (resetFailed (recordAt st h)))
            (stepErrMsg cfg env st)))) ∧
    ((recordAt st h).status = .completed →
      stepIter cfg env st h = .next (skipState st) ∧
      (skipState st).summary.skipped = st.summary.skipped + 1 ∧
      (skipState st).records = st.records ∧
      (skipState st).txCount = st.txCount ∧
      (skipState st).i = st.i + 1) := by
  constructor
  · intro hf
    have hne : (recordAt st h).status ≠ .completed := by
      rw [hf]
      intro hc
      cases hc
    refine ⟨(resetFailed_of_failed _ hf).1, (resetFailed_of_failed _ hf).2,
      resetFailed_attempts _, fun h2 => stepIter_reset_eq cfg env st h hf h2,
      ?_, ?_⟩
    · intro st2 hnext
      rcases stepIter_cases cfg env st h with ⟨hc, _⟩ | ⟨hc, hs, heq⟩ |
        ⟨hc, hs, hrest⟩
      · exact absurd hc hne
      · rw [heq] at hnext
        cases hnext
        obtain ⟨p1, _, p3, p4, _, _⟩ :=
          afterAttempt_proj cfg (successState cfg env st h) (st.i : Int)
            (st.i + 1)
        exact ⟨p4.trans rfl, by rw [p3], Or.inl (p1.trans rfl)⟩
      · rcases hrest with ⟨hact, heq⟩ | ⟨hact, heq⟩ | ⟨hact, heq⟩ | ⟨hact, heq⟩
        · rw [heq] at hnext
          cases hnext
          obtain ⟨p1, _, p3, p4, _, _⟩ :=
            afterAttempt_proj cfg (failureState cfg env st h)
              ((st.i : Int) - 1) st.i
          exact ⟨p4.trans rfl, by rw [p3]; omega, Or.inr (p1.trans rfl)⟩
        · rw [heq] at hnext
          cases hnext
          obtain ⟨p1, _, p3, p4, _, _⟩ :=
            afterAttempt_proj cfg (failureState cfg env st h) (st.i : Int)
              (st.i + 1)
          exact ⟨p4.trans rfl, by rw [p3], Or.inr (p1.trans rfl)⟩
        · rw [heq] at hnext
          cases hnext
        · rw [heq] at hnext
          cases hnext
    · intro res hhalt
      rcases stepIter_cases cfg env st h with ⟨hc, _⟩ | ⟨hc, hs, heq⟩ |
        ⟨hc, hs, hrest⟩
      · exact absurd hc hne
      · rw [heq] at hhalt
        cases hhalt
      · rcases hrest with ⟨hact, heq⟩ | ⟨hact, heq⟩ | ⟨hact, heq⟩ | ⟨hact, heq⟩
        · rw [heq] at hhalt
          cases hhalt
        · rw [heq] at hhalt
          cases hhalt
        · rw [heq] at hhalt
          cases hhalt
          exact ⟨rfl, rfl⟩
        · rw [heq] at hhalt
          cases hhalt
          exact ⟨rfl, rfl⟩
  · intro hcmp
    rcases stepIter_cases cfg env st h with ⟨hc, heq⟩ | ⟨hc, _, _⟩ |
      ⟨hc, _, _⟩
    · exact ⟨heq, rfl, rfl, rfl, rfl⟩
    · exact absurd hcmp hc
    · exact absurd hcmp hc

def c3Env : RunEnv :=
  { attempt := fun _ =>
      { submit := .accepted none none none, newHeadsWithinTimeout := 5 },
    failureHandler := none }

def c3Rec : DistributionRecord :=
  { address := "C".data
    amount := 3
    status := .failed
    error := some ("old".data)
    attempts := some 1 }

def c3St : LoopState :=
  { records := [c3Rec],
    summary :=
      { totalRecords := 1
        completed := 0
        failed := 0
        skipped := 0
        totalAmount := 3
        distributedAmount := 0
        failedAmount := 0 },
    i := 0, txCount := 0, decCount := 0, events := [] }

theorem claimC3_failed_reset_witness :
    (resetFailed (recordAt c3St (by decide))).status = .pending ∧
    (resetFailed (recordAt c3St (by decide))).error = none ∧
    (resetFailed (recordAt c3St (by decide))).attempts =
      (recordAt c3St (by decide)).attempts :=
  ⟨((claimC3_failed_reset c1Cfg c3Env c3St (by decide)).1 (by decide)).1,
   ((claimC3_failed_reset c1Cfg c3Env c3St (by decide)).1 (by decide)).2.1,
   ((claimC3_failed_reset c1Cfg c3Env c3St (by decide)).1 (by decide)).2.2.1⟩

/-- **C4**: only the not-initialized precondition makes `distribute`
throw, and it throws before the loop starts; an initialized run never
propagates an error. A confirmation wait that sees fewer new heads than
required within the bounded window is recovered into a `success = false`
result carrying the timeout message. Every failed attempt is recovered
into the record slot — status `failed`, the error message stored,
attempts incremented — in every continuation of the iteration, whether
the loop goes on or halts. -/
theorem claimC4_failures_recovered (cfg : AppConfig) (env : RunEnv)
    (records : List DistributionRecord) (resumeFromIndex fuel : Nat) :
    distribute cfg env false records resumeFromIndex fuel =
      .error ("Distributor not initialized. Call initialize() first.".data) ∧
    (∃ o, distribute cfg env true records resumeFromIndex fuel = .ok o) ∧
    (∀ a : AttemptEnv, ∀ ident inBlock bn,
      a.submit = .accepted ident inBlock bn →
      a.newHeadsWithinTimeout < max cfg.confirmationBlocks 1 →
      executeTransfer cfg a =
        { success := false,
          error := some ("Transaction confirmation timeout".data) }) ∧
    (∀ st : LoopState, ∀ h : st.i < st.records.length,
      (recordAt st h).status ≠ .completed →
      (attemptResult cfg env st).success = false →
      (failRecord cfg env st h).status = .failed ∧
      (failRecord cfg env st h).error = some (stepErrMsg cfg env st) ∧
      (failRecord cfg env st h).attempts =
        some (jsOrNat (recordAt st h).attempts 0 + 1) ∧
      (∀ st2, stepIter cfg env st h = .next st2 →
        st2.records = st.records.set st.i (failRecord cfg env st h)) ∧
      (∀ res, stepIter cfg env st h = .halt res →
        res.final.records = st.records.set st.i (failRecord cfg env st h))) := by
  refine ⟨?_, ?_, ?_, ?_⟩
  · unfold distribute
    rw [if_pos (by simp)]
  · unfold distribute
    rw [if_neg (by simp)]
    exact ⟨_, rfl⟩
  · intro a ident inBlock bn hsub hlt
    unfold executeTransfer
    rw [hsub]
    unfold waitForConfirmation
    rw [if_neg (by omega)]
  · intro st h hne hfail
    refine ⟨failRecord_status cfg env st h, failRecord_error cfg env st h,
      failRecord_attempts cfg env st h, ?_, ?_⟩
    · intro st2 hnext
      rcases stepIter_cases cfg env st h with ⟨hc, _⟩ | ⟨hc, hs, heq⟩ |
        ⟨hc, hs, hrest⟩
      · exact absurd hc hne
      · rw [hfail] at hs
        cases hs
      · rcases hrest with ⟨hact, heq⟩ | ⟨hact, heq⟩ | ⟨hact, heq⟩ | ⟨hact, heq⟩
        · rw [heq] at hnext
          cases hnext
          exact (afterAttempt_proj cfg (failureState cfg env st h)
            ((st.i : Int) - 1) st.i).1.trans rfl
        · rw [heq] at hnext
          cases hnext
          exact (afterAttempt_proj cfg (failureState cfg env st h)
            (st.i : Int) (st.i + 1)).1.trans rfl
        · rw [heq] at hnext
          cases hnext
        · rw [heq] at hnext
          cases hnext
    · intro res hhalt
      rcases stepIter_cases cfg env st h with ⟨hc, _⟩ | ⟨hc, hs, heq⟩ |
        ⟨hc, hs, hrest⟩
      · exact absurd hc hne
      · rw [hfail] at hs
        cases hs
      · rcases hrest with ⟨hact, heq⟩ | ⟨hact, heq⟩ | ⟨hact, heq⟩ | ⟨hact, heq⟩
        · rw [heq] at hhalt
          cases hhalt
        · rw [heq] at hhalt
          cases hhalt
        · rw [heq] at hhalt
          cases hhalt
          rfl
        · rw [heq] at hhalt
          cases hhalt
          rfl

def c4Env : RunEnv :=
  { attempt := fun _ =>
      { submit := .thrown ("boom".data), newHeadsWithinTimeout := 0 },
    failureHandler := none }

theorem claimC4_failures_recovered_witness :
    executeTransfer c1Cfg
        { submit := .accepted none none none, newHeadsWithinTimeout := 0 } =
      { success := false,
        error := some ("Transaction confirmation timeout".data) } ∧
    (failRecord c1Cfg c4Env c3St (by decide)).status = .failed ∧
    (failRecord c1Cfg c4Env c3St (by decide)).attempts = some 2 :=
  ⟨(claimC4_failures_recovered c1Cfg c4Env [] 0 0).2.2.1
      { submit := .accepted none none none, newHeadsWithinTimeout := 0 }
      none none none rfl (by decide),
   ((claimC4_failures_recovered c1Cfg c4Env [] 0 0).2.2.2 c3St (by decide)
      (by decide) (by decide)).1,
   by
     rw [((claimC4_failures_recovered c1Cfg c4Env [] 0 0).2.2.2 c3St
       (by decide) (by decide) (by decide)).2.2.1]
     decide⟩

/-! **C10**: the `skipped` status value is never assigned to a record. -/

def eventNoSkip : REvent → Prop
  | .save recs _ _ => ∀ r ∈ recs, r.status ≠ .skipped
  | .clear => True

theorem noSkip_set (recs : List DistributionRecord) (i : Nat)
    (rp : DistributionRecord)
    (hrecs : ∀ r ∈ recs, r.status ≠ .skipped) (hr : rp.status ≠ .skipped) :
    ∀ r ∈ recs.set i rp, r.status ≠ .skipped := by
  intro r hm
  rcases List.mem_or_eq_of_mem_set hm with hm2 | hm2
  · exact hrecs r hm2
  · rw [hm2]
    exact hr

theorem noSkip_afterAttempt (cfg : AppConfig) (stX : LoopState) (j : Int)
    (n : Nat)
    (h1 : ∀ r ∈ stX.records, r.status ≠ .skipped)
    (h2 : ∀ e ∈ stX.events, eventNoSkip e) :
    (∀ r ∈ (afterAttempt cfg stX j n).records, r.status ≠ .skipped) ∧
    (∀ e ∈ (afterAttempt cfg stX j n).events, eventNoSkip e) := by
  obtain ⟨hr, _, _, _, _, hev⟩ := afterAttempt_proj cfg stX j n
  refine ⟨by rw [hr]; exact h1, ?_⟩
  intro e he
  rcases hev with hev | hev
  · exact h2 e (by rw [hev] at he; exact he)
  · rw [hev] at he
    rcases List.mem_append.mp he with h7 | h7
    · exact h2 e h7
    · have : e = REvent.save stX.records stX.summary (j + 1).toNat := by
        simpa using h7
      rw [this]
      exact h1

theorem noSkip_step (cfg : AppConfig) (env : RunEnv) (st : LoopState)
    (h : st.i < st.records.length)
    (hP : (∀ r ∈ st.records, r.status ≠ .skipped) ∧
      (∀ e ∈ st.events, eventNoSkip e)) :
    (∀ st2, stepIter cfg env st h = .next st2 →
      (∀ r ∈ st2.records, r.status ≠ .skipped) ∧
      (∀ e ∈ st2.events, eventNoSkip e)) ∧
    (∀ res, stepIter cfg env st h = .halt res →
      (∀ r ∈ res.final.records, r.status ≠ .skipped) ∧
      (∀ e ∈ res.final.events, eventNoSkip e)) := by
  obtain ⟨hR, hE⟩ := hP
  have hsuc : ∀ r ∈ st.records.set st.i (succRecord cfg env st h),
      r.status ≠ .skipped := by
    apply noSkip_set _ _ _ hR
    rw [succRecord_status]
    intro hc
    cases hc
  have hfail : ∀ r ∈ st.records.set st.i (failRecord cfg env st h),
      r.status ≠ .skipped := by
    apply noSkip_set _ _ _ hR
    rw [failRecord_status]
    intro hc
    cases hc
  rcases stepIter_cases cfg env st h with ⟨hc, heq⟩ | ⟨hc, hs, heq⟩ |
    ⟨hc, hs, hrest⟩
  · constructor
    · intro st2 hnext
      rw [heq] at hnext
      cases hnext
      exact ⟨hR, hE⟩
    · intro res hhalt
      rw [heq] at hhalt
      cases hhalt
  · constructor
    · intro st2 hnext
      rw [heq] at hnext
      cases hnext
      exact noSkip_afterAttempt cfg (successState cfg env st h) (st.i : Int)
        (st.i + 1) hsuc hE
    · intro res hhalt
      rw [heq] at hhalt
      cases hhalt
  · rcases hrest with ⟨hact, heq⟩ | ⟨hact, heq⟩ | ⟨hact, heq⟩ | ⟨hact, heq⟩
    · constructor
      · intro st2 hnext
        rw [heq] at hnext
        cases hnext
        exact noSkip_afterAttempt cfg (failureState cfg env st h)
          ((st.i : Int) - 1) st.i hfail hE
      · intro res hhalt
        rw [heq] at hhalt
        cases hhalt
    · constructor
      · intro st2 hnext
        rw [heq] at hnext
        cases hnext
        exact noSkip_afterAttempt cfg (failureState cfg env st h)
          (st.i : Int) (st.i + 1) hfail hE
      · intro res hhalt
        rw [heq] at hhalt
        cases hhalt
    · constructor
      · intro st2 hnext
        rw [heq] at hnext
        cases hnext
      · intro res hhalt
        rw [heq] at hhalt
        cases hhalt
        unfold pauseDistribution
        simp only
        refine ⟨hfail, ?_⟩
        intro e he
        rcases List.mem_append.mp he with h7 | h7
        · exact hE e h7
        · have : e = REvent.save (failureState cfg env st h).records
              (failureState cfg env st h).summary
              (failureState cfg env st h).i := by
            simpa using h7
          rw [this]
          exact hfail
    · constructor
      · intro st2 hnext
        rw [heq] at hnext
        cases hnext
      · intro res hhalt
        rw [heq] at hhalt
        cases hhalt
        unfold abortResult
        simp only
        refine ⟨hfail, ?_⟩
        intro e he
        rcases List.mem_append.mp he with h7 | h7
        · exact hE e h7
        · have he2 := h7
          simp only [List.mem_singleton] at he2
          rw [he2]
          exact hfail

/-- **C10**: no operation of the distributor ever assigns the status
`skipped` to a record: in any run starting from records none of which is
`skipped`, no record of the final state nor of any saved checkpoint is
`skipped`; and a record skipped on replay keeps its `completed` status —
the skip branch leaves the records untouched and only increments the
summary's `skipped` counter. -/
theorem claimC10_no_skipped_status (cfg : AppConfig) (env : RunEnv)
    (records : List DistributionRecord) (resumeFromIndex fuel : Nat)
    (res : RunResult)
    (hrun : distribute cfg env true records resumeFromIndex fuel =
      .ok (some res))
    (hin : ∀ r ∈ records, r.status ≠ .skipped) :
    ((∀ r ∈ res.final.records, r.status ≠ .skipped) ∧
      (∀ e ∈ res.final.events, eventNoSkip e)) ∧
    (∀ st : LoopState, ∀ h : st.i < st.records.length,
      (recordAt st h).status = .completed →
      stepIter cfg env st h = .next (skipState st) ∧
      (skipState st).records = st.records ∧
      (skipState st).summary.skipped = st.summary.skipped + 1) := by
  constructor
  · unfold distribute at hrun
    rw [if_neg (by simp)] at hrun
    simp only [Except.ok.injEq] at hrun
    have key :
        ∀ fuel st r,
          ((∀ rec ∈ st.records, rec.status ≠ .skipped) ∧
            (∀ e ∈ st.events, eventNoSkip e)) →
          loopGo cfg env fuel st = some r →
          ((∀ rec ∈ r.final.records, rec.status ≠ .skipped) ∧
            (∀ e ∈ r.final.events, eventNoSkip e)) := by
      apply loopGo_inv
      · intro st h hP
        exact noSkip_step cfg env st h hP
      · intro st hP _
        unfold finishRun
        simp only
        refine ⟨hP.1, ?_⟩
        intro e he
        rcases List.mem_append.mp he with h7 | h7
        · exact hP.2 e h7
        · have : e = REvent.clear := by simpa using h7
          rw [this]
          trivial
    refine key fuel _ res ⟨hin, ?_⟩ hrun
    intro e he
    have : e = REvent.save records
        { totalRecords := records.length,
          completed := 0, failed := 0, skipped := 0,
          totalAmount := sumAmounts records,
          distributedAmount := 0, failedAmount := 0,
          startTime := (),
          resumedFrom :=
            if resumeFromIndex > 0 then some resumeFromIndex else none }
        resumeFromIndex := by simpa using he
    rw [this]
    exact hin
  · intro st h hcmp
    rcases stepIter_cases cfg env st h with ⟨hc, heq⟩ | ⟨hc, _, _⟩ |
      ⟨hc, _, _⟩
    · exact ⟨heq, rfl, rfl⟩
    · exact absurd hcmp hc
    · exact absurd hcmp hc

theorem claimC10_no_skipped_status_witness :
    (∀ r ∈ c1Res.final.records, r.status ≠ .skipped) ∧
    (∀ e ∈ c1Res.final.events, eventNoSkip e) :=
  (claimC10_no_skipped_status c1Cfg c1Env c1Recs 0 6 c1Res (by decide)
    (by decide)).1

/-! **C5**: `validateSufficientBalance` (distributor.ts lines 337-371).
The gas buffer is converted from the configured AI3 number by the SDK's
`ai3NumberToShannon`, which is not part of this repository; the converted
buffer enters here as the exact integer `gasBuffer`. -/

structure BalanceValidation where
  sufficient : Bool
  currentBalance : Int
  requiredAmount : Int
  shortfall : Option Int := none
deriving DecidableEq, Repr

def validateSufficientBalance (currentBalance gasBuffer totalAmount : Int) :
    BalanceValidation :=
  let requiredAmount := totalAmount + gasBuffer
  let sufficient := decide (requiredAmount ≤ currentBalance)
  { sufficient := sufficient,
    currentBalance := currentBalance,
    requiredAmount := requiredAmount,
    shortfall :=
      if sufficient then none else some (requiredAmount - currentBalance) }

/-- **C5**: for every exact-integer balance `B`, distribution total `T`
and converted gas buffer `G`, the validation result has
`sufficient = (B ≥ T + G)`, `currentBalance = B`,
`requiredAmount = T + G`, and carries `shortfall = (T + G) - B` exactly
when insufficient and no shortfall otherwise. -/
theorem claimC5_balance_validation (B T G : Int) :
    (validateSufficientBalance B G T).sufficient = decide (T + G ≤ B) ∧
    (validateSufficientBalance B G T).currentBalance = B ∧
    (validateSufficientBalance B G T).requiredAmount = T + G ∧
    (validateSufficientBalance B G T).shortfall =
      (if T + G ≤ B then none else some (T + G - B)) := by
  unfold validateSufficientBalance
  refine ⟨rfl, rfl, rfl, ?_⟩
  by_cases hc : T + G ≤ B
  · simp [hc]
  · simp [hc]

/-! **C8**: BigInt-safe persistence of resume data
(src/unnamed/part_003, bigint-json.ts). Runtime values are modelled as
trees: `bigintV` is a JavaScript BigInt, `num` a JSON number. The
serialize-then-parse pipeline is `stringifyWithBigInt` followed by
`JSON.parse`: the replacer turns every BigInt into its decimal string,
and printing then parsing the resulting JSON text is the identity on the
remaining tree, so the pipeline is modelled as that tree map. -/

mutual
inductive TVal where
  | bigintV (i : Int)
  | str (s : List Char)
  | num (n : Int)
  | boolV (b : Bool)
  | nullV
  | arr (xs : TArr)
  | obj (fs : TObj)
inductive TArr where
  | nil
  | cons (v : TVal) (rest : TArr)
inductive TObj where
  | nil
  | cons (k : List Char) (v : TVal) (rest : TObj)
end

/-- The four field names `convertDistributionStringsToBigInt` converts. -/
def isAmountKey (k : List Char) : Bool :=
  decide (k = ("amount".data)) || decide (k = ("totalAmount".data)) ||
    decide (k = ("distributedAmount".data)) || decide (k = ("failedAmount".data))

/-- `BigInt(s)` on the decimal strings produced by `BigInt.toString`. -/
def strToInt (cs : List Char) : Int :=
  if cs.head? = some '-' then -(digitsVal (cs.drop 1) : Int)
  else (digitsVal cs : Int)

mutual
/-- `JSON.parse(stringifyWithBigInt(v))`: BigInts become their decimal
strings, everything else survives the JSON text unchanged. -/
def stringifyThenParse : TVal → TVal
  | .bigintV i => .str (intRepr i)
  | .str s => .str s
  | .num n => .num n
  | .boolV b => .boolV b
  | .nullV => .nullV
  | .arr xs => .arr (stringifyThenParseArr xs)
  | .obj fs => .obj (stringifyThenParseObj fs)
def stringifyThenParseArr : TArr → TArr
  | .nil => .nil
  | .cons v rest => .cons (stringifyThenParse v) (stringifyThenParseArr rest)
def stringifyThenParseObj : TObj → TObj
  | .nil => .nil
  | .cons k v rest => .cons k (stringifyThenParse v) (stringifyThenParseObj rest)
end

mutual
/-- `convertDistributionStringsToBigInt` (part_003 lines 28-60): arrays
recurse into every element; objects convert a truthy (non-empty) string
under one of the four amount keys with `BigInt`, and recurse into every
object or array value. The source converts the named fields first and
then recurses over `Object.values`; the two phases touch disjoint values
(a converted field is a BigInt, which the recursion skips), so they are
merged per field here. -/
def convertDistributionStringsToBigInt : TVal → TVal
  | .arr xs => .arr (convertArr xs)
  | .obj fs => .obj (convertObj fs)
  | v => v
def convertArr : TArr → TArr
  | .nil => .nil
  | .cons v rest => .cons (convertDistributionStringsToBigInt v) (convertArr rest)
def convertObj : TObj → TObj
  | .nil => .nil
  | .cons k v rest =>
    .cons k
      (if isAmountKey k then
        match v with
        | .str s => if s.isEmpty then .str s else .bigintV (strToInt s)
        | .arr xs => .arr (convertArr xs)
        | .obj fs => .obj (convertObj fs)
        | v2 => v2
      else
        match v with
        | .arr xs => .arr (convertArr xs)
        | .obj fs => .obj (convertObj fs)
        | v2 => v2)
      (convertObj rest)
end

mutual
/-- Values whose serialized form reloads to themselves: BigInts appear
only under the four amount keys, and no non-empty plain string sits
under an amount key. -/
def goodVal : TVal → Bool
  | .bigintV _ => false
  | .arr xs => goodArr xs
  | .obj fs => goodObj fs
  | _ => true
def goodArr : TArr → Bool
  | .nil => true
  | .cons v rest => goodVal v && goodArr rest
def goodObj : TObj → Bool
  | .nil => true
  | .cons k v rest =>
    (if isAmountKey k then
      match v with
      | .bigintV _ => true
      | .str s => s.isEmpty
      | .arr xs => goodArr xs
      | .obj fs => goodObj fs
      | _ => true
    else goodVal v) && goodObj rest
end

theorem strToInt_intRepr (i : Int) : strToInt (intRepr i) = i := by
  unfold intRepr
  by_cases hneg : i < 0
  · rw [if_pos hneg]
    unfold strToInt
    rw [if_pos (by rfl)]
    simp only [List.drop_succ_cons, List.drop_zero, digitsVal_natRepr]
    omega
  · rw [if_neg hneg]
    have hc : ¬ ((natRepr i.natAbs).head? = some '-') := by
      cases hnr : natRepr i.natAbs with
      | nil => simp
      | cons c rest =>
        have hd : isDigitCh c = true :=
          natRepr_all_digits _ c (by rw [hnr]; exact List.mem_cons_self c rest)
        simp only [List.head?_cons, Option.some.injEq]
        intro he
        rw [he] at hd
        exact absurd hd (by decide)
    unfold strToInt
    rw [if_neg hc, digitsVal_natRepr]
    omega

theorem intRepr_ne_nil (i : Int) : intRepr i ≠ [] := by
  unfold intRepr
  by_cases hneg : i < 0
  · rw [if_pos hneg]
    intro hcon
    cases hcon
  · rw [if_neg hneg]
    exact natRepr_ne_nil _

mutual
theorem convert_stringify_val (v : TVal) (h : goodVal v = true) :
    convertDistributionStringsToBigInt (stringifyThenParse v) = v := by
  cases v with
  | bigintV i => simp [goodVal] at h
  | str s => rfl
  | num n => rfl
  | boolV b => rfl
  | nullV => rfl
  | arr xs =>
    simp only [goodVal] at h
    simp only [stringifyThenParse, convertDistributionStringsToBigInt]
    rw [convert_stringify_arr xs h]
  | obj fs =>
    simp only [goodVal] at h
    simp only [stringifyThenParse, convertDistributionStringsToBigInt]
    rw [convert_stringify_obj fs h]

theorem convert_stringify_arr (xs : TArr) (h : goodArr xs = true) :
    convertArr (stringifyThenParseArr xs) = xs := by
  cases xs with
  | nil => rfl
  | cons v rest =>
    simp only [goodArr, Bool.and_eq_true] at h
    simp only [stringifyThenParseArr, convertArr]
    rw [convert_stringify_val v h.1, convert_stringify_arr rest h.2]

theorem convert_stringify_obj (fs : TObj) (h : goodObj fs = true) :
    convertObj (stringifyThenParseObj fs) = fs := by
  cases fs with
  | nil => rfl
  | cons k v rest =>
    simp only [stringifyThenParseObj]
    by_cases hk : isAmountKey k = true
    · cases v with
      | bigintV i =>
        simp [goodObj, hk] at h
        simp [stringifyThenParse, convertObj, hk,
          convert_stringify_obj rest h, intRepr_ne_nil i, strToInt_intRepr]
      | str s =>
        simp [goodObj, hk] at h
        obtain ⟨h1, h2⟩ := h
        simp [stringifyThenParse, convertObj, hk, h1,
          convert_stringify_obj rest h2]
      | num n =>
        simp [goodObj, hk] at h
        simp [stringifyThenParse, convertObj, hk, convert_stringify_obj rest h]
      | boolV b =>
        simp [goodObj, hk] at h
        simp [stringifyThenParse, convertObj, hk, convert_stringify_obj rest h]
      | nullV =>
        simp [goodObj, hk] at h
        simp [stringifyThenParse, convertObj, hk, convert_stringify_obj rest h]
      | arr xs =>
        simp [goodObj, hk] at h
        simp [stringifyThenParse, convertObj, hk,
          convert_stringify_obj rest h.2, convert_stringify_arr xs h.1]
      | obj fs2 =>
        simp [goodObj, hk] at h
        simp [stringifyThenParse, convertObj, hk,
          convert_stringify_obj rest h.2, convert_stringify_obj fs2 h.1]
    · cases v with
      | bigintV i =>
        simp [goodObj, hk, goodVal] at h
      | str s =>
        simp [goodObj, hk, goodVal] at h
        simp [stringifyThenParse, convertObj, hk, convert_stringify_obj rest h]
      | num n =>
        simp [goodObj, hk, goodVal] at h
        simp [stringifyThenParse, convertObj, hk, convert_stringify_obj rest h]
      | boolV b =>
        simp [goodObj, hk, goodVal] at h
        simp [stringifyThenParse, convertObj, hk, convert_stringify_obj rest h]
      | nullV =>
        simp [goodObj, hk, goodVal] at h
        simp [stringifyThenParse, convertObj, hk, convert_stringify_obj rest h]
      | arr xs =>
        simp [goodObj, hk, goodVal] at h
        simp [stringifyThenParse, convertObj, hk,
          convert_stringify_obj rest h.2, convert_stringify_arr xs h.1]
      | obj fs2 =>
        simp [goodObj, hk, goodVal] at h
        simp [stringifyThenParse, convertObj, hk,
          convert_stringify_obj rest h.2, convert_stringify_obj fs2 h.1]
end

/-! The persisted `ResumeData` shape (part_005, ResumeManager.saveState):
records, summary, lastProcessedIndex, timestamp. `JSON.stringify` omits
absent optional fields; `Date` values serialize as ISO strings, written
here as the placeholder text `date`. -/

def statusText : Status → List Char
  | .pending => "pending".data
  | .processing => "processing".data
  | .completed => "completed".data
  | .failed => "failed".data
  | .skipped => "skipped".data

def optStrField (k : List Char) (v : Option (List Char)) (rest : TObj) :
    TObj :=
  match v with
  | some s => .cons k (.str s) rest
  | none => rest

def optNumField (k : List Char) (v : Option Nat) (rest : TObj) : TObj :=
  match v with
  | some n => .cons k (.num n) rest
  | none => rest

def optDateField (k : List Char) (v : Option Unit) (rest : TObj) : TObj :=
  match v with
  | some _ => .cons k (.str ("date".data)) rest
  | none => rest

def optBoolField (k : List Char) (v : Option Bool) (rest : TObj) : TObj :=
  match v with
  | some b => .cons k (.boolV b) rest
  | none => rest

def recordTVal (r : DistributionRecord) : TVal :=
  .obj (.cons ("address".data) (.str r.address)
    (.cons ("amount".data) (.bigintV r.amount)
      (.cons ("status".data) (.str (statusText r.status))
        (optStrField ("transactionHash".data) r.transactionHash
          (optStrField ("blockHash".data) r.blockHash
            (optNumField ("blockNumber".data) r.blockNumber
              (optStrField ("error".data) r.error
                (optNumField ("attempts".data) r.attempts
                  (optDateField ("timestamp".data) r.timestamp .nil)))))))))

def recordsArr : List DistributionRecord → TArr
  | [] => .nil
  | r :: rs => .cons (recordTVal r) (recordsArr rs)

def summaryTVal (s : DistributionSummary) : TVal :=
  .obj (.cons ("totalRecords".data) (.num s.totalRecords)
    (.cons ("completed".data) (.num s.completed)
      (.cons ("failed".data) (.num s.failed)
        (.cons ("skipped".data) (.num s.skipped)
          (.cons ("totalAmount".data) (.bigintV s.totalAmount)
            (.cons ("distributedAmount".data) (.bigintV s.distributedAmount)
              (.cons ("failedAmount".data) (.bigintV s.failedAmount)
                (.cons ("startTime".data) (.str ("date".data))
                  (optDateField ("endTime".data) s.endTime
                    (optNumField ("resumedFrom".data) s.resumedFrom
                      (optBoolField ("abortedByUser".data) s.abortedByUser
                        .nil)))))))))))

def resumeDataTVal (records : List DistributionRecord)
    (summary : DistributionSummary) (lastProcessedIndex : Nat) : TVal :=
  .obj (.cons ("records".data) (.arr (recordsArr records))
    (.cons ("summary".data) (summaryTVal summary)
      (.cons ("lastProcessedIndex".data) (.num lastProcessedIndex)
        (.cons ("timestamp".data) (.str ("date".data)) .nil))))

theorem goodObj_optStrField (k : List Char) (v : Option (List Char))
    (rest : TObj) (hk : isAmountKey k = false)
    (hrest : goodObj rest = true) :
    goodObj (optStrField k v rest) = true := by
  cases v with
  | none => exact hrest
  | some s => simp [optStrField, goodObj, goodVal, hk, hrest]

theorem goodObj_optNumField (k : List Char) (v : Option Nat)
    (rest : TObj) (hk : isAmountKey k = false)
    (hrest : goodObj rest = true) :
    goodObj (optNumField k v rest) = true := by
  cases v with
  | none => exact hrest
  | some n => simp [optNumField, goodObj, goodVal, hk, hrest]

theorem goodObj_optDateField (k : List Char) (v : Option Unit)
    (rest : TObj) (hk : isAmountKey k = false)
    (hrest : goodObj rest = true) :
    goodObj (optDateField k v rest) = true := by
  cases v with
  | none => exact hrest
  | some _ => simp [optDateField, goodObj, goodVal, hk, hrest]

theorem goodObj_optBoolField (k : List Char) (v : Option Bool)
    (rest : TObj) (hk : isAmountKey k = false)
    (hrest : goodObj rest = true) :
    goodObj (optBoolField k v rest) = true := by
  cases v with
  | none => exact hrest
  | some b => simp [optBoolField, goodObj, goodVal, hk, hrest]

theorem goodVal_recordTVal (r : DistributionRecord) :
    goodVal (recordTVal r) = true := by
  have hrest : goodObj
      (optStrField ("transactionHash".data) r.transactionHash
        (optStrField ("blockHash".data) r.blockHash
          (optNumField ("blockNumber".data) r.blockNumber
            (optStrField ("error".data) r.error
              (optNumField ("attempts".data) r.attempts
                (optDateField ("timestamp".data) r.timestamp .nil)))))) =
      true :=
    goodObj_optStrField _ _ _ (by decide)
      (goodObj_optStrField _ _ _ (by decide)
        (goodObj_optNumField _ _ _ (by decide)
          (goodObj_optStrField _ _ _ (by decide)
            (goodObj_optNumField _ _ _ (by decide)
              (goodObj_optDateField ("timestamp".data) r.timestamp .nil
                (by decide) rfl)))))
  have k1 : isAmountKey ("address".data) = false := by decide
  have k2 : isAmountKey ("amount".data) = true := by decide
  have k3 : isAmountKey ("status".data) = false := by decide
  unfold recordTVal
  simp [goodVal, goodObj, hrest, k1, k2, k3]

theorem goodArr_recordsArr (records : List DistributionRecord) :
    goodArr (recordsArr records) = true := by
  induction records with
  | nil => rfl
  | cons r rs ih =>
    simp [recordsArr, goodArr, goodVal_recordTVal r, ih]

theorem goodVal_summaryTVal (s : DistributionSummary) :
    goodVal (summaryTVal s) = true := by
  have hrest : goodObj
      (optDateField ("endTime".data) s.endTime
        (optNumField ("resumedFrom".data) s.resumedFrom
          (optBoolField ("abortedByUser".data) s.abortedByUser .nil))) =
      true :=
    goodObj_optDateField _ _ _ (by decide)
      (goodObj_optNumField _ _ _ (by decide)
        (goodObj_optBoolField ("abortedByUser".data) s.abortedByUser .nil
          (by decide) rfl))
  have k1 : isAmountKey ("totalRecords".data) = false := by decide
  have k2 : isAmountKey ("completed".data) = false := by decide
  have k3 : isAmountKey ("failed".data) = false := by decide
  have k4 : isAmountKey ("skipped".data) = false := by decide
  have k5 : isAmountKey ("totalAmount".data) = true := by decide
  have k6 : isAmountKey ("distributedAmount".data) = true := by decide
  have k7 : isAmountKey ("failedAmount".data) = true := by decide
  have k8 : isAmountKey ("startTime".data) = false := by decide
  unfold summaryTVal
  simp [goodVal, goodObj, hrest, k1, k2, k3, k4, k5, k6, k7, k8]

theorem goodObj_cons_nonAmount (k : List Char) (v : TVal) (rest : TObj)
    (hk : isAmountKey k = false) (hv : goodVal v = true)
    (hrest : goodObj rest = true) :
    goodObj (.cons k v rest) = true := by
  cases v <;> simp_all [goodObj, goodVal, hk]

theorem goodVal_resumeDataTVal (records : List DistributionRecord)
    (summary : DistributionSummary) (lastProcessedIndex : Nat) :
    goodVal (resumeDataTVal records summary lastProcessedIndex) = true := by
  have k1 : isAmountKey ("records".data) = false := by decide
  have k2 : isAmountKey ("summary".data) = false := by decide
  have k3 : isAmountKey ("lastProcessedIndex".data) = false := by decide
  have k4 : isAmountKey ("timestamp".data) = false := by decide
  unfold resumeDataTVal
  simp only [goodVal]
  apply goodObj_cons_nonAmount _ _ _ k1
    (by simp [goodVal, goodArr_recordsArr records])
  apply goodObj_cons_nonAmount _ _ _ k2 (goodVal_summaryTVal summary)
  apply goodObj_cons_nonAmount _ _ _ k3 (by simp [goodVal])
  apply goodObj_cons_nonAmount _ _ _ k4 (by simp [goodVal])
  rfl

/-- **C8**: persisting resume data with `stringifyWithBigInt` and
reloading it through `JSON.parse` followed by
`convertDistributionStringsToBigInt` reconstructs the value exactly —
in particular every `amount`, `totalAmount`, `distributedAmount` and
`failedAmount` BigInt survives byte-exactly for arbitrarily large
integers — and each BigInt is persisted as its decimal text (a non-empty
JSON string), never as a binary floating-point JSON number. -/
theorem claimC8_bigint_roundtrip (records : List DistributionRecord)
    (summary : DistributionSummary) (lastProcessedIndex : Nat) :
    convertDistributionStringsToBigInt
        (stringifyThenParse (resumeDataTVal records summary
          lastProcessedIndex)) =
      resumeDataTVal records summary lastProcessedIndex ∧
    (∀ b : Int, stringifyThenParse (.bigintV b) = .str (intRepr b) ∧
      intRepr b ≠ [] ∧ strToInt (intRepr b) = b) :=
  ⟨convert_stringify_val _
      (goodVal_resumeDataTVal records summary lastProcessedIndex),
    fun b => ⟨rfl, intRepr_ne_nil b, strToInt_intRepr b⟩⟩
